import Mathlib

/-!
# Verification of the configuration-object serializer (`common/utils/dump_py_code.py`)

This file shallowly embeds the serializer of the repository: the functions
`dump_py_code`, `dump_crp`, `_dump_crp_dict` (here `dump_crp_dict`) and
`dump_rasr_config`, together with the data model they traverse
(`rasr.CommonRasrParameters` / `rasr.RasrConfig` trees), and proves the
specified properties about them.

The serializer itself lives in the repository; the two traversed classes and
the helpers `py_repr` / `is_valid_python_attrib_name` are external to the
dumped source and are modelled from the specification, as documented on each
such definition.

Design of the embedding:
* Python's heterogeneous runtime values become the closed inductive `Value`
  with tags for the supported primitive scalars (`Prim`), `RasrConfig` nodes,
  `CommonRasrParameters` bundles, plain dicts, and a catch-all `other` tag
  carrying a runtime type name (any unregistered Python object).
* Association lists (`List (String × _)`) model Python's insertion-ordered
  dicts / `vars()` tables.
* Prolog/epilog fragments and their hashes are strings, with the empty string
  standing for an absent (falsy) fragment, matching the `if v:` / `assert not
  h` truthiness tests of the source.
* The emitted `print` statements become structured `Stmt` values: a left-hand
  side (a base name plus a path of dotted-attribute / bracketed-string-key
  accessors, exactly as the source concatenates `f"{lhs}.{k}"` and
  `f"{lhs}[{k!r}]"`) and a right-hand side (a literal, one of the two
  constructor calls, or an opaque `py_repr` of an unsupported object).
  `renderStmt` produces the concrete text of each statement.
* A raised Python exception becomes an `Option DumpError` result paired with
  the statements printed before the raise (`print` happens incrementally, so
  output before an exception has already been written).
-/

/-- Supported primitive scalar values: `None`, `int`, `float`, `str`, `bool`
and the opaque file-path reference type `i6_core.util.MultiPath`
(`_valid_primitive_types` in the source). Floats are modelled as rationals;
no claim depends on float arithmetic or float literal syntax. -/
inductive Prim where
  | none : Prim
  | int (i : Int) : Prim
  | float (q : Rat) : Prim
  | str (s : String) : Prim
  | bool (b : Bool) : Prim
  | multiPath (p : String) : Prim
deriving DecidableEq, Repr

/-- A runtime value as seen by the serializer's `isinstance` dispatch:
a primitive, a `rasr.RasrConfig` node (own value, prolog / prolog-hash /
epilog / epilog-hash fragments with `""` for absent, and named children in
insertion order — a child is either a terminal scalar or a nested config,
which is how the node presents its children to iteration), a
`rasr.CommonRasrParameters` bundle (attributes in `vars()` order), a plain
dict, or any other runtime type (carrying its type name). -/
inductive Value where
  | prim (p : Prim) : Value
  | config (value : Option Prim) (prolog prologHash epilog epilogHash : String)
      (children : List (String × Value)) : Value
  | crp (attrs : List (String × Value)) : Value
  | dict (items : List (String × Value)) : Value
  | other (tyName : String) : Value

/-- One accessor step of an emitted left-hand side: `.name` (dotted
attribute) or `[key]` (bracketed string key). -/
inductive Accessor where
  | attr (name : String) : Accessor
  | item (key : String) : Accessor
deriving DecidableEq, Repr

/-- An emitted left-hand side: a base name followed by accessor steps,
mirroring the string `lhs` the source threads through recursion. -/
structure Lhs where
  base : String
  path : List Accessor
deriving DecidableEq, Repr

/-- Append one accessor to a left-hand side (the source's `f"{lhs}.{k}"` /
`f"{lhs}[{k!r}]"`). -/
def Lhs.push (l : Lhs) (a : Accessor) : Lhs :=
  ⟨l.base, l.path ++ [a]⟩

/-- An emitted right-hand side: a primitive literal (via `py_repr`), the
`rasr.CommonRasrParameters()` constructor, the `rasr.RasrConfig(...)`
constructor with keyword arguments in order, or the opaque `py_repr` text of
an object outside the modelled primitive set. -/
inductive Rhs where
  | lit (p : Prim) : Rhs
  | crpCtor : Rhs
  | configCtor (kwargs : List (String × String)) : Rhs
  | reprText (tyName : String) : Rhs
deriving DecidableEq, Repr

/-- One emitted assignment statement. -/
structure Stmt where
  lhs : Lhs
  rhs : Rhs
deriving DecidableEq, Repr

/-- A raised exception: `TypeError` with the offending dotted path and the
offending value's runtime type name (`f"{lhs}.{k} is type {type(v)}"`), or a
failed `assert`. -/
inductive DumpError where
  | typeError (path : String) (tyName : String) : DumpError
  | assertionError : DumpError
deriving DecidableEq, Repr

/-! ## String helpers (kernel-reduction friendly) -/

/-- Map a function over the characters of a string. -/
def mapChars (f : Char → Char) (s : String) : String :=
  ⟨s.data.map f⟩

/-- The source's `k.replace("-", "_")` (the pattern is a single character,
so a character map is exact). -/
def dashToUnderscore (s : String) : String :=
  mapChars (fun c => if c = '-' then '_' else c) s

/-- Underscore-to-dash character map (used to model the external
`RasrConfig` attribute-name normalization when replaying statements). -/
def underscoreToDash (s : String) : String :=
  mapChars (fun c => if c = '_' then '-' else c) s

/-- Whether a string contains a given character. -/
def containsChar (s : String) (c : Char) : Bool :=
  s.data.any (fun d => d = c)

/-- The reserved words of the target scripting language. -/
def pythonKeywords : List String :=
  ["False", "None", "True", "and", "as", "assert", "async", "await",
   "break", "class", "continue", "def", "del", "elif", "else", "except",
   "finally", "for", "from", "global", "if",
   "import", "in", "is", "lambda", "nonlocal", "not", "or", "pass",
   "raise", "return", "try", "while", "with", "yield"]

/-- Whether a character may start a bare identifier. -/
def identStartChar (c : Char) : Bool :=
  ('a' ≤ c && c ≤ 'z') || ('A' ≤ c && c ≤ 'Z') || c = '_'

/-- Whether a character may continue a bare identifier. -/
def identContChar (c : Char) : Bool :=
  identStartChar c || ('0' ≤ c && c ≤ '9')

/-- Modelled from the spec: the helper `is_valid_python_attrib_name` (module
`common/utils/python.py`, not part of the dumped sources) decides whether a
key "is a syntactically valid bare identifier (letters/digits/underscore,
not starting with a digit, and not colliding with reserved words)". -/
def is_valid_python_attrib_name (s : String) : Bool :=
  match s.data with
  | [] => false
  | c :: rest =>
      identStartChar c && rest.all identContChar && !(pythonKeywords.any (fun k => k = s))

/-- Modelled from the spec: the repr of a string in the target language
(single quotes, backslash escaping for backslash and quote), used for
bracketed string keys and constructor keyword values (`{k!r}` in the
source). -/
def pyStrRepr (s : String) : String :=
  let esc := s.data.foldr
    (fun c acc =>
      if c = '\\' then '\\' :: '\\' :: acc
      else if c = '\'' then '\\' :: '\'' :: acc
      else c :: acc) []
  ⟨'\'' :: esc ++ ['\'']⟩

/-- Modelled from the spec: the helper `py_repr` (module
`common/utils/py_repr.py`, not part of the dumped sources) renders a
supported primitive as a literal that "must round-trip through the target
language's own literal parser"; the file-path reference type is "represented
via its own constructor call, not as a plain string". Floats are rendered
through the rational's textual form. -/
def py_repr : Prim → String
  | .none => "None"
  | .int i => toString i
  | .float q => toString q
  | .str s => pyStrRepr s
  | .bool b => if b then "True" else "False"
  | .multiPath p => "i6_core.util.MultiPath(" ++ pyStrRepr p ++ ")"

/-- Runtime type name of a value (Python's `type(v)` as it appears in the
`TypeError` message). -/
def typeNameOf : Value → String
  | .prim .none => "NoneType"
  | .prim (.int _) => "int"
  | .prim (.float _) => "float"
  | .prim (.str _) => "str"
  | .prim (.bool _) => "bool"
  | .prim (.multiPath _) => "MultiPath"
  | .config _ _ _ _ _ _ => "RasrConfig"
  | .crp _ => "CommonRasrParameters"
  | .dict _ => "dict"
  | .other t => t

/-- Render one accessor as the source renders it into the `lhs` string. -/
def renderAcc : Accessor → String
  | .attr n => "." ++ n
  | .item k => "[" ++ pyStrRepr k ++ "]"

/-- Render a left-hand side to its concrete text. -/
def renderLhs (l : Lhs) : String :=
  l.base ++ String.join (l.path.map renderAcc)

/-- Render a keyword-argument list as `k=v` pairs separated by `", "`
(the source's `', '.join(f'{k}={v!r}' ...)`). -/
def renderKwargs : List (String × String) → String
  | [] => ""
  | [(k, v)] => k ++ "=" ++ pyStrRepr v
  | (k, v) :: rest => k ++ "=" ++ pyStrRepr v ++ ", " ++ renderKwargs rest

/-- Render a right-hand side to its concrete text. -/
def renderRhs : Rhs → String
  | .lit p => py_repr p
  | .crpCtor => "rasr.CommonRasrParameters()"
  | .configCtor kwargs => "rasr.RasrConfig(" ++ renderKwargs kwargs ++ ")"
  | .reprText t => "py_repr(<" ++ t ++ ">)"

/-- Render a statement to the concrete line of text the source prints. -/
def renderStmt (s : Stmt) : String :=
  renderLhs s.lhs ++ " = " ++ renderRhs s.rhs

/-! ## The serializer -/

/-- Keyword arguments contributed by one prolog/epilog fragment: the source's

```
if v:
    kwargs[k] = v
    if h != v:
        kwargs[f"{k}_hash"] = h
```

(`""` is the falsy/absent fragment). -/
def fragKwargs (nm v h : String) : List (String × String) :=
  if v = "" then []
  else (nm, v) :: (if h = v then [] else [(nm ++ "_hash", h)])

/-- The full keyword-argument list collected for a node, prolog before
epilog, in the stable order prolog, prolog_hash, epilog, epilog_hash. -/
def configKwargs (p ph e eh : String) : List (String × String) :=
  fragKwargs "prolog" p ph ++ fragKwargs "epilog" e eh

/-- Whether one fragment passes the source's `assert not h` check taken in
the falsy branch: if the text is absent the hash must be absent. -/
def fragOk (v h : String) : Bool :=
  !(v = "") || h = ""

/-- Whether both fragments pass the `assert not h` checks. -/
def kwargsOk (p ph e eh : String) : Bool :=
  fragOk p ph && fragOk e eh

/-- Sequence two incremental dump results: if the first raised, its output
stands and the second never runs; otherwise outputs concatenate and the
second's error (if any) is the result. -/
def dseq (a b : List Stmt × Option DumpError) : List Stmt × Option DumpError :=
  match a.2 with
  | some _ => a
  | none => (a.1 ++ b.1, b.2)

/-- The node-header part of `dump_rasr_config(lhs, config, parent_is_config)`
(source lines 80–98): collect prolog/epilog keyword arguments (raising if a
hash is present without its text); if any keyword argument was collected or
`parent_is_config` is false, assert the own value is `None` and emit the
explicit constructor call; otherwise emit the own value if present. -/
def configHeader (lhs : Lhs) (val : Option Prim) (p ph e eh : String)
    (parent_is_config : Bool) : List Stmt × Option DumpError :=
  if !kwargsOk p ph e eh then ([], some .assertionError)
  else
    let kwargs := configKwargs p ph e eh
    if !kwargs.isEmpty || !parent_is_config then
      if val.isSome then ([], some .assertionError)
      else ([⟨lhs, .configCtor kwargs⟩], none)
    else
      ((match val with
         | some pv => [⟨lhs, .lit pv⟩]
         | none => []), none)

mutual

/-- The child loop of `dump_rasr_config` (source lines 99–109): for each
child key in order, normalize hyphens to underscores; if the result is a
valid identifier use dotted syntax with the normalized name, else bracketed
syntax with the original key; then dump the child value at that target. -/
def dumpConfigChildren (lhs : Lhs) :
    List (String × Value) → List Stmt × Option DumpError
  | [] => ([], none)
  | (k, v) :: rest =>
      let pyAttr := dashToUnderscore k
      let subLhs := if is_valid_python_attrib_name pyAttr
        then lhs.push (.attr pyAttr) else lhs.push (.item k)
      dseq (dumpChildVal subLhs v) (dumpConfigChildren lhs rest)
termination_by structural l => l

/-- One config child value at its target: recurse for config children
(`parent_is_config=True`), emit one literal statement for scalar children
(any non-config child goes through `py_repr`). -/
def dumpChildVal (subLhs : Lhs) : Value → List Stmt × Option DumpError
  | .config vf cp cph ce ceh ch =>
      dseq (configHeader subLhs vf cp cph ce ceh true)
        (dumpConfigChildren subLhs ch)
  | .prim pv => ([⟨subLhs, .lit pv⟩], none)
  | v2 => ([⟨subLhs, .reprText (typeNameOf v2)⟩], none)
termination_by structural v => v

/-- The attribute loop of `dump_crp` (source lines 51–61): each attribute
in order, at the dotted target `lhs.k`. -/
def dumpCrpAttrs (lhs : Lhs) :
    List (String × Value) → List Stmt × Option DumpError
  | [] => ([], none)
  | (k, v) :: rest =>
      dseq (dumpAttrVal (lhs.push (.attr k)) v) (dumpCrpAttrs lhs rest)
termination_by structural l => l

/-- One bundle attribute value at its target: nested config →
`dump_rasr_config` with `parent_is_config=False`; nested bundle →
`dump_crp`; dict → `_dump_crp_dict`; supported primitive → one literal
statement; anything else → `TypeError` naming the dotted path and the
runtime type. -/
def dumpAttrVal (subLhs : Lhs) : Value → List Stmt × Option DumpError
  | .config vf cp cph ce ceh ch =>
      dseq (configHeader subLhs vf cp cph ce ceh false)
        (dumpConfigChildren subLhs ch)
  | .crp attrs =>
      dseq ([⟨subLhs, .crpCtor⟩], none) (dumpCrpAttrs subLhs attrs)
  | .dict items => dump_crp_dict subLhs items
  | .prim pv => ([⟨subLhs, .lit pv⟩], none)
  | .other t => ([], some (.typeError (renderLhs subLhs) t))
termination_by structural v => v

/-- `_dump_crp_dict(lhs, d)` of the source (lines 64–71): each entry in
order, at the dotted target `lhs.k`. -/
def dump_crp_dict (lhs : Lhs) :
    List (String × Value) → List Stmt × Option DumpError
  | [] => ([], none)
  | (k, v) :: rest =>
      dseq (dumpDictVal (lhs.push (.attr k)) v) (dump_crp_dict lhs rest)
termination_by structural l => l

/-- One dict value at its target: config value → `dump_rasr_config` with
`parent_is_config=False`; supported primitive → one literal statement;
anything else (including nested bundles and nested dicts) → `TypeError`
naming the dotted path and the runtime type. -/
def dumpDictVal (subLhs : Lhs) : Value → List Stmt × Option DumpError
  | .config vf cp cph ce ceh ch =>
      dseq (configHeader subLhs vf cp cph ce ceh false)
        (dumpConfigChildren subLhs ch)
  | .prim pv => ([⟨subLhs, .lit pv⟩], none)
  | v2 => ([], some (.typeError (renderLhs subLhs) (typeNameOf v2)))

end

/-- `dump_rasr_config(lhs, config, parent_is_config=...)` of the source,
taking the config node's fields: the node header (constructor call or own
value, with its assertions) followed by the children, in order. -/
def dump_rasr_config (lhs : Lhs) (val : Option Prim) (p ph e eh : String)
    (children : List (String × Value)) (parent_is_config : Bool) :
    List Stmt × Option DumpError :=
  dseq (configHeader lhs val p ph e eh parent_is_config)
    (dumpConfigChildren lhs children)

/-- `dump_crp(crp, lhs=...)` of the source: emit the
`rasr.CommonRasrParameters()` constructor, then each attribute in `vars()`
order. Only called on bundle values; the non-bundle fallback is
unreachable. -/
def dump_crp (lhs : Lhs) (crp : Value) : List Stmt × Option DumpError :=
  match crp with
  | .crp attrs => dseq ([⟨lhs, .crpCtor⟩], none) (dumpCrpAttrs lhs attrs)
  | _ => ([], some .assertionError)

/-- `dump_py_code(obj, lhs=...)` of the source: bundles go to `dump_crp`,
configs to `dump_rasr_config` with `parent_is_config=False`, anything else
is printed as a single `lhs = py_repr(obj)` statement (a literal for the
supported primitives, opaque text otherwise). -/
def dump_py_code (obj : Value) (lhs : Lhs) : List Stmt × Option DumpError :=
  match obj with
  | .crp attrs => dump_crp lhs (.crp attrs)
  | .config vf p ph e eh ch => dump_rasr_config lhs vf p ph e eh ch false
  | .prim pv => ([⟨lhs, .lit pv⟩], none)
  | v2 => ([⟨lhs, .reprText (typeNameOf v2)⟩], none)

/-! ## Replay semantics

Modelled from the spec: the emitted statements are "re-executed against an
environment providing constructors for ParameterBundle and
HierarchicalConfig", where "dotted-attribute assignment on these constructed
objects auto-creates intermediate nested config nodes", dotted-attribute
addressing of config children uses hyphen-normalized names (so the setter
maps underscores back to hyphens), bracketed string keys are used verbatim,
and `RasrConfig(prolog=..., prolog_hash=..., ...)` restores the fragment
texts with each hash defaulting to its text when the hash keyword is omitted
(the omitted hash "is considered redundant"). Assigning a scalar to a config
child stores a terminal scalar; assigning through it afterwards promotes it
to a config node carrying that scalar as its own value. -/

/-- Association-list lookup (first match). -/
def lookupK {α : Type} : List (String × α) → String → Option α
  | [], _ => none
  | (k, v) :: rest, key => if k = key then some v else lookupK rest key

/-- Association-list store: overwrite in place if the key is present
(keeping its position, as Python dicts do), else append. -/
def setK {α : Type} : List (String × α) → String → α → List (String × α)
  | [], key, v => [(key, v)]
  | (k, w) :: rest, key, v =>
      if k = key then (key, v) :: rest else (k, w) :: setK rest key v

/-- Store an optional new slot content: `none` (slot untouched) is a no-op. -/
def updK {α : Type} (l : List (String × α)) (key : String) :
    Option α → List (String × α)
  | none => l
  | some v => setK l key v

/-- The value built by `rasr.RasrConfig(**kwargs)`: fragment texts from the
keyword arguments, each hash defaulting to its text, no own value, no
children. -/
def ctorConfig (kwargs : List (String × String)) : Value :=
  let p := (lookupK kwargs "prolog").getD ""
  let ph := (lookupK kwargs "prolog_hash").getD p
  let e := (lookupK kwargs "epilog").getD ""
  let eh := (lookupK kwargs "epilog_hash").getD e
  .config none p ph e eh []

/-- The value a right-hand side evaluates to (`none` for opaque text, which
the replay environment cannot reconstruct). -/
def rhsToValue : Rhs → Option Value
  | .lit pv => some (.prim pv)
  | .crpCtor => some (.crp [])
  | .configCtor kwargs => some (ctorConfig kwargs)
  | .reprText _ => none

/-- The child key a config-node accessor addresses: dotted attribute names
are normalized underscore-to-dash by the external class's setter, bracketed
keys are used verbatim. -/
def effKey : Accessor → String
  | .attr n => underscoreToDash n
  | .item k => k

/-- The key a plain-dict accessor addresses (verbatim in both forms). -/
def rawKey : Accessor → String
  | .attr n => n
  | .item k => k

/-- A fresh auto-vivified config node. -/
def emptyConfig : Value := .config none "" "" "" "" []

/-- Promotion applied when assigning through an existing value: a terminal
scalar becomes a config node carrying it as own value; containers are left
as they are. -/
def upgradeContent : Value → Value
  | .prim pv => .config (some pv) "" "" "" "" []
  | v => v

/-- Perform one assignment inside a slot: `slot` is the current content
(vivified to `dflt` when empty), `path` the remaining accessors, `rhs` the
assigned expression. Returns the new slot content, `none` on a replay
error. Bundles vivify missing attributes as empty dicts when assigned
through; dicts vivify missing values and configs missing children as empty
config nodes. -/
def assignV (dflt : Value) (slot : Option Value) :
    List Accessor → Rhs → Option Value
  | [], rhs => rhsToValue rhs
  | a :: rest, rhs =>
      match upgradeContent (slot.getD dflt) with
      | .crp attrs =>
          match a with
          | .attr k =>
              (assignV (.dict []) (lookupK attrs k) rest rhs).map
                (fun nv => .crp (setK attrs k nv))
          | .item _ => none
      | .dict items =>
          (assignV emptyConfig (lookupK items (rawKey a)) rest rhs).map
            (fun nv => .dict (setK items (rawKey a) nv))
      | .config vf p ph e eh ch =>
          (assignV emptyConfig (lookupK ch (effKey a)) rest rhs).map
            (fun nv => .config vf p ph e eh (setK ch (effKey a) nv))
      | _ => none

/-- Execute statements against a slot (used for every non-root position). -/
def execVS (dflt : Value) (base : String) :
    Option Value → List Stmt → Option (Option Value)
  | slot, [] => some slot
  | slot, s :: ss =>
      if s.lhs.base = base then
        match assignV dflt slot s.lhs.path s.rhs with
        | some nv => execVS dflt base (some nv) ss
        | none => none
      else none

/-- Execute one statement at the root environment: the single variable
`base` may be bound by a path-less assignment; deeper assignments require
it to be bound already (no vivification of an unbound variable). -/
def execStmt (base : String) (env : Option Value) (s : Stmt) :
    Option (Option Value) :=
  if s.lhs.base = base then
    match s.lhs.path with
    | [] => (rhsToValue s.rhs).map some
    | _ :: _ =>
        match env with
        | some v => (assignV (.dict []) (some v) s.lhs.path s.rhs).map some
        | none => none
  else none

/-- Execute a statement sequence in a fresh (or given) root environment. -/
def execStmts (base : String) (env : Option Value) :
    List Stmt → Option (Option Value)
  | [] => some env
  | s :: ss => (execStmt base env s).bind (fun env2 => execStmts base env2 ss)

/-! ## Validity of input trees

The serializer's own preconditions, together with the representation
invariants the external classes guarantee for the structures they hand to
the dump (documented per conjunct). -/

/-- Keys of an association list are pairwise distinct (Python dicts and
`vars()` guarantee this). -/
def keysNodup {α : Type} : List (String × α) → Bool
  | [] => true
  | (k, _) :: rest => !(rest.any (fun kv => kv.1 == k)) && keysNodup rest

/-- A config child key as stored by the external class: when its
hyphen-normalized form is a valid identifier (so the dump addresses it with
dotted syntax) it contains no underscore — the class's attribute setter
normalizes underscores to hyphens on construction, so such keys cannot
occur. -/
def childKeyOk (k : String) : Bool :=
  if is_valid_python_attrib_name (dashToUnderscore k) then !containsChar k '_'
  else true

/-- The node-level conditions for a valid config in explicit-constructor
position (`parent_is_config=False`): no own value (the source asserts
this), hash fields absent whenever their text is absent, distinct child
keys. -/
def rootedConfigOk (vf : Option Prim) (p ph e eh : String)
    (ch : List (String × Value)) : Bool :=
  !vf.isSome && kwargsOk p ph e eh && keysNodup ch

/-- The node-level conditions for a valid config child
(`parent_is_config=True`): hash fields absent whenever their text is
absent; no own value if a constructor call will be required; not silently
vanishing (a node with no fragments, no own value and no children emits
nothing — the spec documents this quirk, so such nodes are excluded from
valid trees); not a pure own-value-only node (the external class hands
those to the dump as terminal scalars, not as config objects); distinct
child keys. -/
def childConfigOk (vf : Option Prim) (p ph e eh : String)
    (ch : List (String × Value)) : Bool :=
  kwargsOk p ph e eh
    && (if (configKwargs p ph e eh).isEmpty then true else !vf.isSome)
    && (!(configKwargs p ph e eh).isEmpty || vf.isSome || !ch.isEmpty)
    && (!vf.isSome || !ch.isEmpty)
    && keysNodup ch

mutual

/-- Valid bundle attribute list: every value of a supported attribute
kind, recursively valid. -/
def validCrpAttrs : List (String × Value) → Bool
  | [] => true
  | (_, v) :: rest => validAttrVal v && validCrpAttrs rest
termination_by structural l => l

/-- Valid bundle attribute value: a primitive, a nested bundle, a nested
config (valid in explicit-constructor position), or a nonempty plain dict
of valid entries. -/
def validAttrVal : Value → Bool
  | .prim _ => true
  | .crp attrs => keysNodup attrs && validCrpAttrs attrs
  | .config vf p ph e eh ch => rootedConfigOk vf p ph e eh ch && validChildren ch
  | .dict items => !items.isEmpty && keysNodup items && validDictItems items
  | .other _ => false
termination_by structural v => v

/-- Valid plain-dict entries, recursively. -/
def validDictItems : List (String × Value) → Bool
  | [] => true
  | (_, v) :: rest => validDictVal v && validDictItems rest
termination_by structural l => l

/-- Valid plain-dict entry value: a primitive or a config in
explicit-constructor position. -/
def validDictVal : Value → Bool
  | .prim _ => true
  | .config vf p ph e eh ch => rootedConfigOk vf p ph e eh ch && validChildren ch
  | _ => false

/-- Valid config children: stored keys as the external class stores them,
values terminal scalars or valid sub-config nodes. -/
def validChildren : List (String × Value) → Bool
  | [] => true
  | (k, v) :: rest => childKeyOk k && validChildVal v && validChildren rest
termination_by structural l => l

/-- Valid config child value: a terminal scalar, or a sub-config node
(`parent_is_config=True`) with valid node-level conditions and valid
children. -/
def validChildVal : Value → Bool
  | .prim _ => true
  | .config vf p ph e eh ch => childConfigOk vf p ph e eh ch && validChildren ch
  | _ => false
termination_by structural v => v

end

/-- Valid config node in explicit-constructor position
(`parent_is_config=False`). -/
def validRootedConfig (vf : Option Prim) (p ph e eh : String)
    (ch : List (String × Value)) : Bool :=
  rootedConfigOk vf p ph e eh ch && validChildren ch

/-- Valid top-level object for `dump_py_code`: a bundle, a config (explicit
constructor required at the root), or a bare primitive. -/
def validTop : Value → Bool
  | .crp attrs => keysNodup attrs && validCrpAttrs attrs
  | .config vf p ph e eh ch => validRootedConfig vf p ph e eh ch
  | .prim _ => true
  | _ => false

/-! ## Derived notions used by the stated properties -/

/-- Prepend a path prefix to a statement's left-hand side (re-rooting a
statement emitted for a subtree). -/
def prependStmt (pre : List Accessor) (s : Stmt) : Stmt :=
  ⟨⟨s.lhs.base, pre ++ s.lhs.path⟩, s.rhs⟩

/-- Whether one accessor renders to syntactically valid target-language
text: a dotted accessor renders as `"." ++ name`, which parses as an
attribute reference exactly when the name is a valid bare identifier; a
bracketed accessor always renders as a valid subscription. -/
def accSyntaxOk : Accessor → Bool
  | .attr n => is_valid_python_attrib_name n
  | .item _ => true

/-- Whether a left-hand side renders to a syntactically valid assignment
target. -/
def lhsSyntaxOk (l : Lhs) : Bool :=
  l.path.all accSyntaxOk

mutual

/-- All offending (dotted path, runtime type) pairs inside a bundle's
attribute list that `dump_crp` would reject with a `TypeError`, in
traversal order. -/
def badCrpAttrs (lhs : Lhs) : List (String × Value) → List (String × String)
  | [] => []
  | (k, v) :: rest => badAttrVal (lhs.push (.attr k)) v ++ badCrpAttrs lhs rest
termination_by structural l => l

/-- Offending pairs contributed by one bundle attribute value: the value
itself if of an unsupported kind, or (recursively) offenders inside a
nested bundle or a plain-dict attribute. Config attributes never raise a
`TypeError` (their failures are assertion failures). -/
def badAttrVal (subLhs : Lhs) : Value → List (String × String)
  | .other t => [(renderLhs subLhs, t)]
  | .crp attrs => badCrpAttrs subLhs attrs
  | .dict items => badDictItems subLhs items
  | _ => []
termination_by structural v => v

/-- Offending pairs inside a plain-dict attribute, in traversal order. -/
def badDictItems (lhs : Lhs) : List (String × Value) → List (String × String)
  | [] => []
  | (k, v) :: rest => badDictVal (lhs.push (.attr k)) v ++ badDictItems lhs rest
termination_by structural l => l

/-- Offending pairs contributed by one dict value: anything that is neither
a config nor a supported primitive (including nested bundles and nested
dicts). -/
def badDictVal (subLhs : Lhs) : Value → List (String × String)
  | .prim _ => []
  | .config _ _ _ _ _ _ => []
  | v2 => [(renderLhs subLhs, typeNameOf v2)]

end

mutual

/-- Whether some config node reachable from a bundle's attribute list
violates an invariant the serializer asserts (a hash present without its
text, or an own value where an explicit constructor call is required). -/
def violCrpAttrs : List (String × Value) → Bool
  | [] => false
  | (_, v) :: rest => violAttrVal v || violCrpAttrs rest
termination_by structural l => l

/-- Assertion violations reachable from one bundle attribute value. A
config attribute is dumped with `parent_is_config=False`, so a constructor
call is always required there. -/
def violAttrVal : Value → Bool
  | .config vf p ph e eh ch =>
      !kwargsOk p ph e eh || vf.isSome || violChildren ch
  | .crp attrs => violCrpAttrs attrs
  | .dict items => violDictItems items
  | _ => false
termination_by structural v => v

/-- Assertion violations reachable from a plain-dict attribute. -/
def violDictItems : List (String × Value) → Bool
  | [] => false
  | (_, v) :: rest => violDictVal v || violDictItems rest
termination_by structural l => l

/-- Assertion violations reachable from one dict value. -/
def violDictVal : Value → Bool
  | .config vf p ph e eh ch =>
      !kwargsOk p ph e eh || vf.isSome || violChildren ch
  | _ => false

/-- Assertion violations among a config node's children
(`parent_is_config=True`: the own-value assertion only applies when some
prolog/epilog keyword argument forces a constructor call). -/
def violChildren : List (String × Value) → Bool
  | [] => false
  | (_, v) :: rest => violChildVal v || violChildren rest
termination_by structural l => l

/-- Assertion violations reachable from one config child value. -/
def violChildVal : Value → Bool
  | .config vf p ph e eh ch =>
      !kwargsOk p ph e eh
        || (!(configKwargs p ph e eh).isEmpty && vf.isSome)
        || violChildren ch
  | _ => false
termination_by structural v => v

end

/-- The target a config child key is addressed at. -/
def childTarget (lhs : Lhs) (k : String) : Lhs :=
  if is_valid_python_attrib_name (dashToUnderscore k)
    then lhs.push (.attr (dashToUnderscore k)) else lhs.push (.item k)

/-- The key of the first child of a config value inside a replay result
(used to tell two replay outcomes apart). -/
def firstChildKeyOf : Option (Option Value) → Option String
  | some (some (.config _ _ _ _ _ ((k, _) :: _))) => some k
  | _ => none

/-- A sample valid tree exercising scalars, nested bundles, configs with
prolog/hash, an own-value child with a hyphenated sibling key, and a plain
dict with a config value. -/
def roundTripExample : Value :=
  .crp [("timeout", .prim (.int 30)),
    ("base", .crp [("flag", .prim (.bool true))]),
    ("cfg", .config none "pro" "hsh" "" ""
      [("sub", .config (some (.str "speech")) "" "" "" ""
        [("lm", .prim (.int 5)), ("tdp-scale", .prim (.str "x"))]),
       ("plain", .prim (.multiPath "/data"))]),
    ("d", .dict [("k1", .prim .none),
      ("k2", .config none "" "" "" "" [("c", .prim (.bool false))])])]

/-- A config tree with an underscore in a child key: it satisfies the data
model's own invariants and dumps without error, but its dotted replay
addresses the child by the hyphen-normalized name, so the key comes back
as "a-b". -/
def underscoreKeyExample : Value :=
  .config none "" "" "" "" [("a_b", .prim (.int 1))]

/-! ## Basic lemmas -/

theorem dseq_nil_left (b : List Stmt × Option DumpError) : dseq ([], none) b = b := by
  simp [dseq]

theorem dseq_cons_left (s : Stmt) (b : List Stmt × Option DumpError) :
    dseq ([s], none) b = (s :: b.1, b.2) := by
  simp [dseq]

theorem dseq_err_left (out : List Stmt) (e : DumpError)
    (b : List Stmt × Option DumpError) : dseq (out, some e) b = (out, some e) := by
  simp [dseq]

/-- The node header of a config requiring a constructor call while carrying
an own value: assertion failure, nothing emitted. -/
theorem configHeader_own_value (lhs : Lhs) (vf : Option Prim)
    (p ph e eh : String) (pic : Bool)
    (hctor : configKwargs p ph e eh ≠ [] ∨ pic = false)
    (hval : vf.isSome = true) :
    configHeader lhs vf p ph e eh pic = ([], some .assertionError) := by
  unfold configHeader
  by_cases hok : kwargsOk p ph e eh
  · have hcond : (!(configKwargs p ph e eh).isEmpty || !pic) = true := by
      rcases hctor with h | h
      · simp [List.isEmpty_eq_true, h]
      · simp [h]
    simp [hok, hcond, hval]
  · simp [Bool.not_eq_true] at hok
    simp [hok]

/-! ## Claim theorems -/

/-- C3: for every config node for which `dump_rasr_config` must emit an
explicit constructor call (because prolog/epilog keyword arguments were
collected, or because `parent_is_config` is false), if the node also
carries a non-`None` own value then its serialization fails with a hard
(assertion) error, and no output is emitted for that node. -/
theorem dump_rasr_config_own_value_rejected (lhs : Lhs) (vf : Option Prim)
    (p ph e eh : String) (ch : List (String × Value)) (pic : Bool)
    (hctor : configKwargs p ph e eh ≠ [] ∨ pic = false)
    (hval : vf.isSome = true) :
    (dump_rasr_config lhs vf p ph e eh ch pic).1 = [] ∧
    (dump_rasr_config lhs vf p ph e eh ch pic).2.isSome = true := by
  rw [dump_rasr_config, configHeader_own_value lhs vf p ph e eh pic hctor hval,
    dseq_err_left]
  exact ⟨rfl, rfl⟩

/-- Witness for C3: a node with a prolog and an own value, reached as a
child of a config, is rejected with empty output. -/
theorem dump_rasr_config_own_value_rejected_w :
    (dump_rasr_config ⟨"x", []⟩ (some (.int 1)) "pp" "pp" "" "" [] true).1 = [] ∧
    (dump_rasr_config ⟨"x", []⟩ (some (.int 1)) "pp" "pp" "" "" [] true).2.isSome = true :=
  dump_rasr_config_own_value_rejected ⟨"x", []⟩ (some (.int 1)) "pp" "pp" "" "" []
    true (Or.inl (by decide)) (by decide)

/-- C5: for every config node and each fragment kind, if the fragment text
is absent (falsy) but the corresponding hash field is present,
`dump_rasr_config` fails with an assertion error, emitting nothing rather
than skipping silently. -/
theorem dump_rasr_config_hash_without_text (lhs : Lhs) (vf : Option Prim)
    (p ph e eh : String) (ch : List (String × Value)) (pic : Bool)
    (hfrag : (p = "" ∧ ph ≠ "") ∨ (e = "" ∧ eh ≠ "")) :
    dump_rasr_config lhs vf p ph e eh ch pic = ([], some .assertionError) := by
  have hok : kwargsOk p ph e eh = false := by
    rcases hfrag with ⟨h1, h2⟩ | ⟨h1, h2⟩ <;>
      simp [kwargsOk, fragOk, h1, h2]
  rw [dump_rasr_config]
  unfold configHeader
  simp [hok, dseq_err_left]

/-- Witness for C5: an absent epilog with a present epilog hash is rejected
even though the prolog side is clean. -/
theorem dump_rasr_config_hash_without_text_w :
    dump_rasr_config ⟨"x", []⟩ none "pp" "hh" "" "zz" [] true =
      ([], some .assertionError) :=
  dump_rasr_config_hash_without_text ⟨"x", []⟩ none "pp" "hh" "" "zz" [] true
    (Or.inr ⟨rfl, by decide⟩)

/-- C9: a config node reached with `parent_is_config=True` that collects no
prolog/epilog keyword arguments (and passes the hash assertions) and has no
own value contributes no statement of its own — its dump is exactly the
dump of its children — and if it moreover has no children it contributes
zero statements and no error. -/
theorem dump_rasr_config_silent_node (lhs : Lhs) (p ph e eh : String)
    (ch : List (String × Value))
    (hkw : configKwargs p ph e eh = [])
    (hok : kwargsOk p ph e eh = true) :
    dump_rasr_config lhs none p ph e eh ch true = dumpConfigChildren lhs ch ∧
    (ch = [] → dump_rasr_config lhs none p ph e eh ch true = ([], none)) := by
  have hhead : configHeader lhs none p ph e eh true = ([], none) := by
    unfold configHeader
    simp [hok, hkw]
  constructor
  · rw [dump_rasr_config, hhead, dseq_nil_left]
  · intro hch
    rw [dump_rasr_config, hhead, dseq_nil_left, hch, dumpConfigChildren]

/-- Witness for C9: a bare empty node under a config parent emits nothing. -/
theorem dump_rasr_config_silent_node_w :
    dump_rasr_config ⟨"x", []⟩ none "" "" "" "" [] true = ([], none) :=
  (dump_rasr_config_silent_node ⟨"x", []⟩ "" "" "" "" [] rfl rfl).2 rfl

/-- C4: when `dump_rasr_config` emits an explicit constructor call for a
config node, the first emitted statement is the constructor call carrying
the collected keyword arguments; for each fragment kind, if the text is
present the text keyword argument is included, and the corresponding hash
keyword argument is included exactly when the hash differs from the text;
the included keyword arguments appear in the stable order prolog,
prolog_hash, epilog, epilog_hash. -/
theorem dump_rasr_config_kwargs (lhs : Lhs) (p ph e eh : String)
    (ch : List (String × Value)) (pic : Bool)
    (hok : kwargsOk p ph e eh = true)
    (hctor : configKwargs p ph e eh ≠ [] ∨ pic = false) :
    (dump_rasr_config lhs none p ph e eh ch pic).1.head? =
      some ⟨lhs, .configCtor (configKwargs p ph e eh)⟩ ∧
    (p ≠ "" → ("prolog", p) ∈ configKwargs p ph e eh ∧
      (("prolog_hash", ph) ∈ configKwargs p ph e eh ↔ ph ≠ p)) ∧
    (e ≠ "" → ("epilog", e) ∈ configKwargs p ph e eh ∧
      (("epilog_hash", eh) ∈ configKwargs p ph e eh ↔ eh ≠ e)) ∧
    List.Sublist ((configKwargs p ph e eh).map Prod.fst)
      ["prolog", "prolog_hash", "epilog", "epilog_hash"] := by
  refine ⟨?_, ?_, ?_, ?_⟩
  · have hcond : (!(configKwargs p ph e eh).isEmpty || !pic) = true := by
      rcases hctor with h | h
      · simp [List.isEmpty_eq_true, h]
      · simp [h]
    rw [dump_rasr_config]
    unfold configHeader
    simp [hok, hcond, dseq_cons_left]
  · intro hp
    by_cases hph : ph = p <;> by_cases he : e = "" <;> by_cases heh : eh = e <;>
      simp_all [configKwargs, fragKwargs]
  · intro he
    by_cases hp : p = "" <;> by_cases hph : ph = p <;> by_cases heh : eh = e <;>
      simp_all [configKwargs, fragKwargs]
  · by_cases hp : p = "" <;> by_cases hph : ph = p <;> by_cases he : e = "" <;>
      by_cases heh : eh = e <;>
      simp_all [configKwargs, fragKwargs]

/-- Witness for C4: a node with differing prolog/hash and an epilog whose
hash equals its text emits `prolog`, `prolog_hash`, `epilog` and no
`epilog_hash`, in that order. -/
theorem dump_rasr_config_kwargs_w :
    (dump_rasr_config ⟨"c", []⟩ none "x" "y" "z" "z" [] true).1.head? =
      some ⟨⟨"c", []⟩, .configCtor [("prolog", "x"), ("prolog_hash", "y"), ("epilog", "z")]⟩ :=
  (dump_rasr_config_kwargs ⟨"c", []⟩ "x" "y" "z" "z" [] true (by decide)
    (Or.inl (by decide))).1

/-- C6 (counterexample to the claimed form): a child key `"foo-bar"` is not
emitted in bracketed string-key syntax — the emitted statement is not
`target['foo-bar'] = 1` and carries no bracketed accessor. -/
theorem dumpConfigChildren_hyphen_not_bracketed :
    (dumpConfigChildren ⟨"target", []⟩ [("foo-bar", .prim (.int 1))]).1 ≠
      [⟨⟨"target", [.item "foo-bar"]⟩, .lit (.int 1)⟩] ∧
    (dumpConfigChildren ⟨"target", []⟩ [("foo-bar", .prim (.int 1))]).1.map
        renderStmt ≠ ["target['foo-bar'] = 1"] := by
  constructor <;> decide

/-- C6 (amended): a child key `"foo-bar"` (containing a hyphen) is emitted
in dotted-attribute syntax with the hyphen normalized to an underscore,
`target.foo_bar`; a key `"foo_bar"` (already a valid identifier) is also
emitted as `target.foo_bar`; bracketed string-key syntax is reserved for
keys whose normalized form is not a valid identifier. -/
theorem dumpConfigChildren_hyphen_key_dotted :
    (dumpConfigChildren ⟨"target", []⟩ [("foo-bar", .prim (.int 1))]).1 =
      [⟨⟨"target", [.attr "foo_bar"]⟩, .lit (.int 1)⟩] ∧
    (dumpConfigChildren ⟨"target", []⟩ [("foo_bar", .prim (.int 1))]).1 =
      [⟨⟨"target", [.attr "foo_bar"]⟩, .lit (.int 1)⟩] ∧
    (dumpConfigChildren ⟨"target", []⟩ [("foo-bar", .prim (.int 1))]).1.map
        renderStmt = ["target.foo_bar = 1"] ∧
    (dumpConfigChildren ⟨"target", []⟩ [("foo.bar", .prim (.int 1))]).1 =
      [⟨⟨"target", [.item "foo.bar"]⟩, .lit (.int 1)⟩] := by
  refine ⟨?_, ?_, ?_, ?_⟩ <;> decide

/-- C7: every config child key is addressed by first normalizing internal
hyphens to underscores; if the result is a syntactically valid bare
identifier the child is addressed in dotted-attribute syntax with the
normalized name, otherwise in bracketed string-key syntax with the
original key — and a scalar child produces exactly one assignment to that
target. -/
theorem dumpConfigChildren_addressing (lhs : Lhs) (k : String) (v : Value)
    (rest : List (String × Value)) (pv : Prim) :
    dumpConfigChildren lhs ((k, v) :: rest) =
      dseq (dumpChildVal
          (if is_valid_python_attrib_name (dashToUnderscore k)
            then lhs.push (.attr (dashToUnderscore k))
            else lhs.push (.item k)) v)
        (dumpConfigChildren lhs rest) ∧
    dumpChildVal
        (if is_valid_python_attrib_name (dashToUnderscore k)
          then lhs.push (.attr (dashToUnderscore k))
          else lhs.push (.item k)) (.prim pv) =
      ([⟨(if is_valid_python_attrib_name (dashToUnderscore k)
          then lhs.push (.attr (dashToUnderscore k))
          else lhs.push (.item k)), .lit pv⟩], none) := by
  constructor
  · rw [dumpConfigChildren]
  · rw [dumpChildVal]

/-- C10: `dump_crp` and `_dump_crp_dict` interpolate bundle attribute keys
and mapping keys directly into a dotted path with no validity check and no
bracketed fallback: a scalar entry `(k, v)` always produces the single
statement `lhs.k = v`, and when `k` is not a valid bare identifier the
resulting statement is not a syntactically valid assignment in the target
language. -/
theorem dump_crp_keys_unchecked (lhs : Lhs) (k : String) (pv : Prim)
    (rest : List (String × Value)) :
    (dumpCrpAttrs lhs ((k, .prim pv) :: rest)).1.head? =
      some ⟨lhs.push (.attr k), .lit pv⟩ ∧
    (dump_crp_dict lhs ((k, .prim pv) :: rest)).1.head? =
      some ⟨lhs.push (.attr k), .lit pv⟩ ∧
    (is_valid_python_attrib_name k = false →
      lhsSyntaxOk (lhs.push (.attr k)) = false) := by
  refine ⟨?_, ?_, ?_⟩
  · rw [dumpCrpAttrs, dumpAttrVal, dseq_cons_left]
    rfl
  · rw [dump_crp_dict, dumpDictVal, dseq_cons_left]
    rfl
  · intro hk
    simp [lhsSyntaxOk, Lhs.push, accSyntaxOk, hk]

/-- Witness for C10: the hyphenated bundle key `"foo-bar"` is emitted
dotted and is not a valid assignment target. -/
theorem dump_crp_keys_unchecked_w :
    lhsSyntaxOk (Lhs.push ⟨"crp", []⟩ (.attr "foo-bar")) = false :=
  (dump_crp_keys_unchecked ⟨"crp", []⟩ "foo-bar" .none []).2.2 (by decide)

theorem dseq_snd_none (a b : List Stmt × Option DumpError) :
    (dseq a b).2 = none ↔ a.2 = none ∧ b.2 = none := by
  rcases a with ⟨out, e⟩
  cases e <;> simp [dseq]

theorem dseq_of_left_none (a b : List Stmt × Option DumpError)
    (h : a.2 = none) : dseq a b = (a.1 ++ b.1, b.2) := by
  rcases a with ⟨out, e⟩
  cases e <;> simp_all [dseq]

/-- Error-free bundle-attribute output is the concatenation, in stored
order, of the per-attribute outputs. -/
theorem dumpCrpAttrs_join (lhs : Lhs) (attrs : List (String × Value))
    (h : (dumpCrpAttrs lhs attrs).2 = none) :
    (dumpCrpAttrs lhs attrs).1 =
      (attrs.map (fun kv => (dumpAttrVal (lhs.push (.attr kv.1)) kv.2).1)).flatten := by
  induction attrs with
  | nil => simp [dumpCrpAttrs]
  | cons kv rest ih =>
      rcases kv with ⟨k, v⟩
      rw [dumpCrpAttrs] at h ⊢
      rcases (dseq_snd_none _ _).1 h with ⟨h1, h2⟩
      rw [dseq_of_left_none _ _ h1]
      simp [ih h2]

/-- Error-free dict output is the concatenation, in stored order, of the
per-entry outputs. -/
theorem dump_crp_dict_join (lhs : Lhs) (items : List (String × Value))
    (h : (dump_crp_dict lhs items).2 = none) :
    (dump_crp_dict lhs items).1 =
      (items.map (fun kv => (dumpDictVal (lhs.push (.attr kv.1)) kv.2).1)).flatten := by
  induction items with
  | nil => simp [dump_crp_dict]
  | cons kv rest ih =>
      rcases kv with ⟨k, v⟩
      rw [dump_crp_dict] at h ⊢
      rcases (dseq_snd_none _ _).1 h with ⟨h1, h2⟩
      rw [dseq_of_left_none _ _ h1]
      simp [ih h2]

/-- Error-free config-children output is the concatenation, in stored
order, of the per-child outputs. -/
theorem dumpConfigChildren_join (lhs : Lhs) (ch : List (String × Value))
    (h : (dumpConfigChildren lhs ch).2 = none) :
    (dumpConfigChildren lhs ch).1 =
      (ch.map (fun kv => (dumpChildVal (childTarget lhs kv.1) kv.2).1)).flatten := by
  induction ch with
  | nil => simp [dumpConfigChildren]
  | cons kv rest ih =>
      rcases kv with ⟨k, v⟩
      rw [dumpConfigChildren] at h ⊢
      rcases (dseq_snd_none _ _).1 h with ⟨h1, h2⟩
      rw [dseq_of_left_none _ _ h1]
      simp [ih h2, childTarget]

/-- C8: the emitted statements for a bundle's attributes, a plain mapping's
keys and a config's children appear in exactly the structure's stored
insertion order — each error-free output is the in-order concatenation of
the per-entry outputs, never re-sorted — and serialization is a pure
function of the input tree, so serializing the same tree twice yields
identical output. -/
theorem dump_insertion_order (lhs : Lhs) (attrs items ch : List (String × Value))
    (obj : Value) :
    ((dumpCrpAttrs lhs attrs).2 = none →
      (dumpCrpAttrs lhs attrs).1 =
        (attrs.map (fun kv => (dumpAttrVal (lhs.push (.attr kv.1)) kv.2).1)).flatten) ∧
    ((dump_crp_dict lhs items).2 = none →
      (dump_crp_dict lhs items).1 =
        (items.map (fun kv => (dumpDictVal (lhs.push (.attr kv.1)) kv.2).1)).flatten) ∧
    ((dumpConfigChildren lhs ch).2 = none →
      (dumpConfigChildren lhs ch).1 =
        (ch.map (fun kv => (dumpChildVal (childTarget lhs kv.1) kv.2).1)).flatten) ∧
    dump_py_code obj lhs = dump_py_code obj lhs :=
  ⟨dumpCrpAttrs_join lhs attrs, dump_crp_dict_join lhs items,
    dumpConfigChildren_join lhs ch, rfl⟩

/-- Witness for C8: attributes stored in order c, a, b are emitted in
exactly that order. -/
theorem dump_insertion_order_w :
    (dumpCrpAttrs ⟨"crp", []⟩
        [("c", .prim (.int 1)), ("a", .prim (.int 2)), ("b", .prim (.int 3))]).1 =
      [⟨⟨"crp", [.attr "c"]⟩, .lit (.int 1)⟩,
       ⟨⟨"crp", [.attr "a"]⟩, .lit (.int 2)⟩,
       ⟨⟨"crp", [.attr "b"]⟩, .lit (.int 3)⟩] :=
  (dump_insertion_order ⟨"crp", []⟩
      [("c", .prim (.int 1)), ("a", .prim (.int 2)), ("b", .prim (.int 3))]
      [] [] (.prim .none)).1 (by decide)

theorem dseq_snd_isSome (a b : List Stmt × Option DumpError) :
    (dseq a b).2.isSome = (a.2.isSome || b.2.isSome) := by
  rcases a with ⟨o, e⟩
  cases e <;> simp [dseq]

theorem configHeader_snd_isSome (lhs : Lhs) (vf : Option Prim)
    (p ph e eh : String) (pic : Bool) :
    (configHeader lhs vf p ph e eh pic).2.isSome =
      (!kwargsOk p ph e eh
        || ((!(configKwargs p ph e eh).isEmpty || !pic) && vf.isSome)) := by
  unfold configHeader
  by_cases hok : kwargsOk p ph e eh
  · by_cases hc : (!(configKwargs p ph e eh).isEmpty || !pic) = true
    · by_cases hv : vf.isSome <;> simp_all
    · simp_all
  · simp_all [Bool.not_eq_true]

mutual

theorem dumpConfigChildren_err (lhs : Lhs) (ch : List (String × Value)) :
    (dumpConfigChildren lhs ch).2.isSome = violChildren ch := by
  match ch with
  | [] => simp [dumpConfigChildren, violChildren]
  | (k, v) :: rest =>
      rw [dumpConfigChildren, violChildren, dseq_snd_isSome,
        dumpChildVal_err, dumpConfigChildren_err lhs rest]
termination_by structural ch

theorem dumpChildVal_err (subLhs : Lhs) (v : Value) :
    (dumpChildVal subLhs v).2.isSome = violChildVal v := by
  match v with
  | .prim pv => simp [dumpChildVal, violChildVal]
  | .config vf p ph e eh ch =>
      rw [dumpChildVal, violChildVal, dseq_snd_isSome,
        configHeader_snd_isSome, dumpConfigChildren_err subLhs ch]
      simp [Bool.or_assoc]
  | .crp attrs => simp [dumpChildVal, violChildVal]
  | .dict items => simp [dumpChildVal, violChildVal]
  | .other t => simp [dumpChildVal, violChildVal]
termination_by structural v

end

theorem isEmpty_append_eq {A : Type} (a b : List A) :
    (a ++ b).isEmpty = (a.isEmpty && b.isEmpty) := by
  cases a <;> simp

mutual

theorem dumpCrpAttrs_err (lhs : Lhs) (attrs : List (String × Value)) :
    (dumpCrpAttrs lhs attrs).2.isSome =
      (!(badCrpAttrs lhs attrs).isEmpty || violCrpAttrs attrs) := by
  match attrs with
  | [] => simp [dumpCrpAttrs, badCrpAttrs, violCrpAttrs]
  | (k, v) :: rest =>
      rw [dumpCrpAttrs, badCrpAttrs, violCrpAttrs, dseq_snd_isSome,
        dumpAttrVal_err (lhs.push (.attr k)) v, dumpCrpAttrs_err lhs rest]
      simp [isEmpty_append_eq, Bool.not_and]
      ac_rfl
termination_by structural attrs

theorem dumpAttrVal_err (subLhs : Lhs) (v : Value) :
    (dumpAttrVal subLhs v).2.isSome =
      (!(badAttrVal subLhs v).isEmpty || violAttrVal v) := by
  match v with
  | .prim pv => simp [dumpAttrVal, badAttrVal, violAttrVal]
  | .config vf p ph e eh ch =>
      rw [dumpAttrVal, violAttrVal, dseq_snd_isSome,
        configHeader_snd_isSome, dumpConfigChildren_err subLhs ch]
      simp [badAttrVal, Bool.or_assoc]
  | .crp attrs =>
      rw [dumpAttrVal, violAttrVal, dseq_snd_isSome,
        dumpCrpAttrs_err subLhs attrs]
      simp [badAttrVal]
  | .dict items =>
      rw [dumpAttrVal, violAttrVal, dump_crp_dict_err subLhs items]
      simp [badAttrVal]
  | .other t => simp [dumpAttrVal, badAttrVal, violAttrVal]
termination_by structural v

theorem dump_crp_dict_err (lhs : Lhs) (items : List (String × Value)) :
    (dump_crp_dict lhs items).2.isSome =
      (!(badDictItems lhs items).isEmpty || violDictItems items) := by
  match items with
  | [] => simp [dump_crp_dict, badDictItems, violDictItems]
  | (k, v) :: rest =>
      rw [dump_crp_dict, badDictItems, violDictItems, dseq_snd_isSome,
        dumpDictVal_err (lhs.push (.attr k)) v, dump_crp_dict_err lhs rest]
      simp [isEmpty_append_eq, Bool.not_and]
      ac_rfl
termination_by structural items

theorem dumpDictVal_err (subLhs : Lhs) (v : Value) :
    (dumpDictVal subLhs v).2.isSome =
      (!(badDictVal subLhs v).isEmpty || violDictVal v) := by
  match v with
  | .prim pv => simp [dumpDictVal, badDictVal, violDictVal]
  | .config vf p ph e eh ch =>
      rw [dumpDictVal, violDictVal, dseq_snd_isSome,
        configHeader_snd_isSome, dumpConfigChildren_err subLhs ch]
      simp [badDictVal, Bool.or_assoc]
  | .crp attrs => simp [dumpDictVal, badDictVal, violDictVal]
  | .dict items2 => simp [dumpDictVal, badDictVal, violDictVal]
  | .other t => simp [dumpDictVal, badDictVal, violDictVal]

end

theorem dseq_snd_some (a b : List Stmt × Option DumpError) (er : DumpError)
    (h : (dseq a b).2 = some er) :
    a.2 = some er ∨ (a.2 = none ∧ b.2 = some er) := by
  rcases a with ⟨o, e⟩
  cases e <;> simp_all [dseq]

theorem configHeader_assert_only (lhs : Lhs) (vf : Option Prim)
    (p ph e eh : String) (pic : Bool) (er : DumpError)
    (h : (configHeader lhs vf p ph e eh pic).2 = some er) :
    er = .assertionError := by
  unfold configHeader at h
  by_cases hok : kwargsOk p ph e eh
  · by_cases hc : (!(configKwargs p ph e eh).isEmpty || !pic) = true
    · by_cases hv : vf.isSome <;> simp_all
    · simp_all
  · simp_all [Bool.not_eq_true]

mutual

theorem dumpConfigChildren_assert_only (lhs : Lhs)
    (ch : List (String × Value)) (er : DumpError)
    (h : (dumpConfigChildren lhs ch).2 = some er) : er = .assertionError := by
  match ch with
  | [] => simp [dumpConfigChildren] at h
  | (k, v) :: rest =>
      rw [dumpConfigChildren] at h
      rcases dseq_snd_some _ _ _ h with h1 | ⟨h1, h2⟩
      · exact dumpChildVal_assert_only _ v er h1
      · exact dumpConfigChildren_assert_only lhs rest er h2
termination_by structural ch

theorem dumpChildVal_assert_only (subLhs : Lhs) (v : Value) (er : DumpError)
    (h : (dumpChildVal subLhs v).2 = some er) : er = .assertionError := by
  match v with
  | .prim pv => simp [dumpChildVal] at h
  | .config vf p ph e eh ch =>
      rw [dumpChildVal] at h
      rcases dseq_snd_some _ _ _ h with h1 | ⟨h1, h2⟩
      · exact configHeader_assert_only _ vf p ph e eh true er h1
      · exact dumpConfigChildren_assert_only subLhs ch er h2
  | .crp attrs => simp [dumpChildVal] at h
  | .dict items => simp [dumpChildVal] at h
  | .other t => simp [dumpChildVal] at h
termination_by structural v

end

mutual

theorem dumpCrpAttrs_typeError_mem (lhs : Lhs) (attrs : List (String × Value))
    (pth t : String)
    (h : (dumpCrpAttrs lhs attrs).2 = some (.typeError pth t)) :
    (pth, t) ∈ badCrpAttrs lhs attrs := by
  match attrs with
  | [] => simp [dumpCrpAttrs] at h
  | (k, v) :: rest =>
      rw [dumpCrpAttrs] at h
      rw [badCrpAttrs]
      rcases dseq_snd_some _ _ _ h with h1 | ⟨h1, h2⟩
      · exact List.mem_append_left _ (dumpAttrVal_typeError_mem _ v pth t h1)
      · exact List.mem_append_right _ (dumpCrpAttrs_typeError_mem lhs rest pth t h2)
termination_by structural attrs

theorem dumpAttrVal_typeError_mem (subLhs : Lhs) (v : Value) (pth t : String)
    (h : (dumpAttrVal subLhs v).2 = some (.typeError pth t)) :
    (pth, t) ∈ badAttrVal subLhs v := by
  match v with
  | .prim pv => simp [dumpAttrVal] at h
  | .config vf p ph e eh ch =>
      rw [dumpAttrVal] at h
      rcases dseq_snd_some _ _ _ h with h1 | ⟨h1, h2⟩
      · exact absurd (configHeader_assert_only _ vf p ph e eh false _ h1) (by simp)
      · exact absurd (dumpConfigChildren_assert_only subLhs ch _ h2) (by simp)
  | .crp attrs =>
      rw [dumpAttrVal] at h
      rcases dseq_snd_some _ _ _ h with h1 | ⟨h1, h2⟩
      · simp at h1
      · exact dumpCrpAttrs_typeError_mem subLhs attrs pth t h2
  | .dict items =>
      rw [dumpAttrVal] at h
      exact dump_crp_dict_typeError_mem subLhs items pth t h
  | .other t2 =>
      rw [dumpAttrVal] at h
      simp at h
      simp [badAttrVal, h]
termination_by structural v

theorem dump_crp_dict_typeError_mem (lhs : Lhs) (items : List (String × Value))
    (pth t : String)
    (h : (dump_crp_dict lhs items).2 = some (.typeError pth t)) :
    (pth, t) ∈ badDictItems lhs items := by
  match items with
  | [] => simp [dump_crp_dict] at h
  | (k, v) :: rest =>
      rw [dump_crp_dict] at h
      rw [badDictItems]
      rcases dseq_snd_some _ _ _ h with h1 | ⟨h1, h2⟩
      · exact List.mem_append_left _ (dumpDictVal_typeError_mem _ v pth t h1)
      · exact List.mem_append_right _ (dump_crp_dict_typeError_mem lhs rest pth t h2)
termination_by structural items

theorem dumpDictVal_typeError_mem (subLhs : Lhs) (v : Value) (pth t : String)
    (h : (dumpDictVal subLhs v).2 = some (.typeError pth t)) :
    (pth, t) ∈ badDictVal subLhs v := by
  match v with
  | .prim pv => simp [dumpDictVal] at h
  | .config vf p ph e eh ch =>
      rw [dumpDictVal] at h
      rcases dseq_snd_some _ _ _ h with h1 | ⟨h1, h2⟩
      · exact absurd (configHeader_assert_only _ vf p ph e eh false _ h1) (by simp)
      · exact absurd (dumpConfigChildren_assert_only subLhs ch _ h2) (by simp)
  | .crp attrs =>
      simp only [dumpDictVal] at h
      simp at h
      simp [badDictVal, typeNameOf, h.1, ← h.2, typeNameOf]
  | .dict items2 =>
      simp only [dumpDictVal] at h
      simp at h
      simp [badDictVal, typeNameOf, h.1, ← h.2, typeNameOf]
  | .other t2 =>
      simp only [dumpDictVal] at h
      simp at h
      simp [badDictVal, typeNameOf, h.1, ← h.2, typeNameOf]

end

/-- C2 (amended): `dump_crp` raises an error if and only if some attribute
value — transitively through nested bundles and plain-mapping attributes —
is of an unsupported kind, or some reachable config node violates one of
the serializer's asserted invariants (a hash present without its text, or
an own value present where an explicit constructor call is required); and
whenever the raised error is the `TypeError`, it names the offending
attribute's full dotted path and its runtime type. -/
theorem dump_crp_error_characterization (lhs : Lhs)
    (attrs : List (String × Value)) :
    ((dump_crp lhs (.crp attrs)).2.isSome =
      (!(badCrpAttrs lhs attrs).isEmpty || violCrpAttrs attrs)) ∧
    (∀ pth t, (dump_crp lhs (.crp attrs)).2 = some (.typeError pth t) →
      (pth, t) ∈ badCrpAttrs lhs attrs) := by
  constructor
  · rw [dump_crp, dseq_of_left_none _ _ rfl]
    exact dumpCrpAttrs_err lhs attrs
  · intro pth t h
    rw [dump_crp, dseq_of_left_none _ _ rfl] at h
    exact dumpCrpAttrs_typeError_mem lhs attrs pth t h

/-- Witness for C2: a bundle attribute holding an unregistered object
raises a `TypeError` carrying that attribute's dotted path and type name. -/
theorem dump_crp_error_characterization_w :
    ("crp.bad", "MyClass") ∈ badCrpAttrs ⟨"crp", []⟩ [("bad", .other "MyClass")] :=
  (dump_crp_error_characterization ⟨"crp", []⟩ [("bad", .other "MyClass")]).2
    "crp.bad" "MyClass" (by decide)

/-- C2 (counterexample to the claimed form): a bundle whose single
attribute is a config carrying an own value has no attribute value of an
unsupported kind, yet `dump_crp` raises (the own-value assertion fails
because a constructor call is required); so "raises an error iff some
value is of an unsupported kind" is false. -/
theorem dump_crp_error_not_only_unsupported :
    ¬(((dump_crp ⟨"crp", []⟩
          (.crp [("a", .config (some (.int 1)) "" "" "" "" [])])).2.isSome = true) ↔
      (badCrpAttrs ⟨"crp", []⟩
          [("a", .config (some (.int 1)) "" "" "" "" [])] ≠ [])) := by
  decide

/-! ### Association-list lemmas -/

theorem lookupK_setK_self {α : Type} (l : List (String × α)) (k : String) (v : α) :
    lookupK (setK l k v) k = some v := by
  induction l with
  | nil => simp [setK, lookupK]
  | cons kv rest ih =>
      rcases kv with ⟨k2, w⟩
      by_cases h : k2 = k <;> simp [setK, lookupK, h, ih]

theorem setK_setK_self {α : Type} (l : List (String × α)) (k : String) (v w : α) :
    setK (setK l k v) k w = setK l k w := by
  induction l with
  | nil => simp [setK]
  | cons kv rest ih =>
      rcases kv with ⟨k2, u⟩
      by_cases h : k2 = k <;> simp [setK, h, ih]

theorem setK_of_lookup_none {α : Type} (l : List (String × α)) (k : String) (v : α)
    (h : lookupK l k = none) : setK l k v = l ++ [(k, v)] := by
  induction l with
  | nil => simp [setK]
  | cons kv rest ih =>
      rcases kv with ⟨k2, w⟩
      by_cases h2 : k2 = k
      · simp [lookupK, h2] at h
      · simp [lookupK, h2] at h
        simp [setK, h2, ih h]

theorem setK_of_lookup_some {α : Type} (l : List (String × α)) (k : String) (v : α)
    (h : lookupK l k = some v) : setK l k v = l := by
  induction l with
  | nil => simp [lookupK] at h
  | cons kv rest ih =>
      rcases kv with ⟨k2, w⟩
      by_cases h2 : k2 = k
      · simp [lookupK, h2] at h
        simp [setK, h2, h]
      · simp [lookupK, h2] at h
        simp [setK, h2, ih h]

theorem updK_lookup_self {α : Type} (l : List (String × α)) (k : String) :
    updK l k (lookupK l k) = l := by
  rcases h : lookupK l k with _ | v
  · simp [updK]
  · simp [updK, setK_of_lookup_some l k v h]

theorem lookupK_append {α : Type} (a b : List (String × α)) (k : String) :
    lookupK (a ++ b) k =
      (match lookupK a k with
        | some v => some v
        | none => lookupK b k) := by
  induction a with
  | nil => simp [lookupK]
  | cons kv rest ih =>
      rcases kv with ⟨k2, w⟩
      by_cases h : k2 = k <;> simp [lookupK, h, ih]

/-! ### Executor basics -/

theorem assignV_slot_none (dflt : Value) (path : List Accessor) (rhs : Rhs) :
    assignV dflt none path rhs = assignV dflt (some dflt) path rhs := by
  cases path <;> rfl

theorem assignV_prim_upgrade (dflt : Value) (pv : Prim) (path : List Accessor)
    (rhs : Rhs) :
    assignV dflt (some (.prim pv)) path rhs =
      assignV dflt (some (.config (some pv) "" "" "" "" [])) path rhs := by
  cases path <;> rfl

theorem execVS_append (dflt : Value) (base : String) (slot : Option Value)
    (ss ts : List Stmt) :
    execVS dflt base slot (ss ++ ts) =
      (execVS dflt base slot ss).bind (fun s2 => execVS dflt base s2 ts) := by
  induction ss generalizing slot with
  | nil => simp [execVS]
  | cons s rest ih =>
      rw [List.cons_append, execVS, execVS]
      by_cases hb : s.lhs.base = base
      · simp only [hb, if_true]
        rcases assignV dflt slot s.lhs.path s.rhs with _ | nv
        · simp
        · exact ih (some nv)
      · simp [hb]

theorem execVS_none_cons (dflt : Value) (base : String) (s : Stmt) (ss : List Stmt) :
    execVS dflt base none (s :: ss) = execVS dflt base (some dflt) (s :: ss) := by
  rw [execVS, execVS, assignV_slot_none]

theorem execVS_prim_cons (dflt : Value) (base : String) (pv : Prim) (s : Stmt)
    (ss : List Stmt) :
    execVS dflt base (some (.prim pv)) (s :: ss) =
      execVS dflt base (some (.config (some pv) "" "" "" "" [])) (s :: ss) := by
  rw [execVS, execVS, assignV_prim_upgrade]

theorem execVS_pres_some (dflt : Value) (base : String) (v : Value)
    (ss : List Stmt) (res : Option Value)
    (h : execVS dflt base (some v) ss = some res) : res.isSome = true := by
  induction ss generalizing v with
  | nil => simp [execVS] at h; simp [← h]
  | cons s rest ih =>
      rw [execVS] at h
      by_cases hb : s.lhs.base = base
      · simp only [hb, if_true] at h
        rcases ha : assignV dflt (some v) s.lhs.path s.rhs with _ | nv
        · rw [ha] at h; simp at h
        · rw [ha] at h
          exact ih nv h
      · simp [hb] at h

theorem execStmts_of_some (base : String) (v : Value) (ss : List Stmt) :
    execStmts base (some v) ss = execVS (.dict []) base (some v) ss := by
  induction ss generalizing v with
  | nil => rfl
  | cons s rest ih =>
      obtain ⟨⟨sb, sp⟩, sr⟩ := s
      rw [execStmts, execVS, execStmt]
      simp only
      by_cases hb : sb = base
      · simp only [hb, if_true]
        rcases sp with _ | ⟨a, q⟩
        · have ha : assignV (Value.dict []) (some v) [] sr = rhsToValue sr := rfl
          rw [ha]
          rcases hr : rhsToValue sr with _ | nv
          · simp
          · simp [ih nv]
        · rcases ha : assignV (Value.dict []) (some v) (a :: q) sr with _ | nv
          · simp [ha]
          · simp [ha, ih nv]
      · simp [hb]

/-! ### Frame lemmas: executing re-rooted statements updates one entry -/

theorem execVS_frame_crp (base k : String) (ss : List Stmt)
    (dflt0 : Value) (attrs : List (String × Value)) :
    execVS dflt0 base (some (.crp attrs)) (ss.map (prependStmt [.attr k])) =
      (execVS (.dict []) base (lookupK attrs k) ss).map
        (fun s2 => some (.crp (updK attrs k s2))) := by
  induction ss generalizing attrs with
  | nil => simp [execVS, updK_lookup_self]
  | cons s rest ih =>
      obtain ⟨⟨sb, sp⟩, sr⟩ := s
      rw [List.map_cons, execVS, execVS]
      simp only [prependStmt, List.singleton_append]
      by_cases hb : sb = base
      · simp only [hb, if_true]
        have ha : assignV dflt0 (some (.crp attrs)) (.attr k :: sp) sr =
            (assignV (.dict []) (lookupK attrs k) sp sr).map
              (fun nv => .crp (setK attrs k nv)) := rfl
        rw [ha]
        rcases h2 : assignV (.dict []) (lookupK attrs k) sp sr with _ | nv
        · simp
        · simp only [Option.map_some']
          rw [ih (setK attrs k nv)]
          rw [lookupK_setK_self]
          rcases hres : execVS (.dict []) base (some nv) rest with _ | s2
          · simp
          · have hs2 : s2.isSome = true := execVS_pres_some _ _ _ _ _ hres
            rcases s2 with _ | w
            · simp at hs2
            · simp [updK, setK_setK_self]
      · simp [hb]

theorem execVS_frame_dict (base : String) (a : Accessor) (ss : List Stmt)
    (dflt0 : Value) (items : List (String × Value)) :
    execVS dflt0 base (some (.dict items)) (ss.map (prependStmt [a])) =
      (execVS emptyConfig base (lookupK items (rawKey a)) ss).map
        (fun s2 => some (.dict (updK items (rawKey a) s2))) := by
  induction ss generalizing items with
  | nil => simp [execVS, updK_lookup_self]
  | cons s rest ih =>
      obtain ⟨⟨sb, sp⟩, sr⟩ := s
      rw [List.map_cons, execVS, execVS]
      simp only [prependStmt, List.singleton_append]
      by_cases hb : sb = base
      · simp only [hb, if_true]
        have ha : assignV dflt0 (some (.dict items)) (a :: sp) sr =
            (assignV emptyConfig (lookupK items (rawKey a)) sp sr).map
              (fun nv => .dict (setK items (rawKey a) nv)) := rfl
        rw [ha]
        rcases h2 : assignV emptyConfig (lookupK items (rawKey a)) sp sr with _ | nv
        · simp
        · simp only [Option.map_some']
          rw [ih (setK items (rawKey a) nv)]
          rw [lookupK_setK_self]
          rcases hres : execVS emptyConfig base (some nv) rest with _ | s2
          · simp
          · have hs2 : s2.isSome = true := execVS_pres_some _ _ _ _ _ hres
            rcases s2 with _ | w
            · simp at hs2
            · simp [updK, setK_setK_self]
      · simp [hb]

theorem execVS_frame_config (base : String) (a : Accessor) (ss : List Stmt)
    (dflt0 : Value) (vf : Option Prim) (p ph e eh : String)
    (ch : List (String × Value)) :
    execVS dflt0 base (some (.config vf p ph e eh ch)) (ss.map (prependStmt [a])) =
      (execVS emptyConfig base (lookupK ch (effKey a)) ss).map
        (fun s2 => some (.config vf p ph e eh (updK ch (effKey a) s2))) := by
  induction ss generalizing ch with
  | nil => simp [execVS, updK_lookup_self]
  | cons s rest ih =>
      obtain ⟨⟨sb, sp⟩, sr⟩ := s
      rw [List.map_cons, execVS, execVS]
      simp only [prependStmt, List.singleton_append]
      by_cases hb : sb = base
      · simp only [hb, if_true]
        have ha : assignV dflt0 (some (.config vf p ph e eh ch)) (a :: sp) sr =
            (assignV emptyConfig (lookupK ch (effKey a)) sp sr).map
              (fun nv => .config vf p ph e eh (setK ch (effKey a) nv)) := rfl
        rw [ha]
        rcases h2 : assignV emptyConfig (lookupK ch (effKey a)) sp sr with _ | nv
        · simp
        · simp only [Option.map_some']
          rw [ih (setK ch (effKey a) nv)]
          rw [lookupK_setK_self]
          rcases hres : execVS emptyConfig base (some nv) rest with _ | s2
          · simp
          · have hs2 : s2.isSome = true := execVS_pres_some _ _ _ _ _ hres
            rcases s2 with _ | w
            · simp at hs2
            · simp [updK, setK_setK_self]
      · simp [hb]

/-! ### Header computations and error-freeness on valid trees -/

theorem configHeader_ctor (lhs : Lhs) (p ph e eh : String) (pic : Bool)
    (hok : kwargsOk p ph e eh = true)
    (hc : (!(configKwargs p ph e eh).isEmpty || !pic) = true) :
    configHeader lhs none p ph e eh pic =
      ([⟨lhs, .configCtor (configKwargs p ph e eh)⟩], none) := by
  unfold configHeader
  simp [hok, hc]

theorem configHeader_plain (lhs : Lhs) (vf : Option Prim) (p ph e eh : String)
    (hok : kwargsOk p ph e eh = true)
    (hkw : (configKwargs p ph e eh).isEmpty = true) :
    configHeader lhs vf p ph e eh true =
      ((match vf with
         | some pv => [⟨lhs, .lit pv⟩]
         | none => []), none) := by
  unfold configHeader
  simp [hok, hkw]

mutual

theorem errNone_children (lhs : Lhs) (ch : List (String × Value))
    (h : validChildren ch = true) : (dumpConfigChildren lhs ch).2 = none := by
  match ch with
  | [] => simp [dumpConfigChildren]
  | (k, v) :: rest =>
      rw [validChildren, Bool.and_eq_true, Bool.and_eq_true] at h
      rw [dumpConfigChildren]
      rw [dseq_snd_none]
      exact ⟨errNone_childVal _ v h.1.2, errNone_children lhs rest h.2⟩
termination_by structural ch

theorem errNone_childVal (lhs : Lhs) (v : Value)
    (h : validChildVal v = true) : (dumpChildVal lhs v).2 = none := by
  match v with
  | .prim pv => simp [dumpChildVal]
  | .config vf p ph e eh ch =>
      rw [validChildVal, Bool.and_eq_true] at h
      rcases h with ⟨hok2, hch⟩
      rw [childConfigOk, Bool.and_eq_true, Bool.and_eq_true, Bool.and_eq_true,
        Bool.and_eq_true] at hok2
      obtain ⟨⟨⟨⟨hok, hvf⟩, _⟩, _⟩, _⟩ := hok2
      rw [dumpChildVal, dseq_snd_none]
      refine ⟨?_, errNone_children lhs ch hch⟩
      by_cases hkw : (configKwargs p ph e eh).isEmpty = true
      · rw [configHeader_plain lhs vf p ph e eh hok hkw]
      · have hvf2 : vf = none := by
          rw [if_neg hkw] at hvf
          rcases vf with _ | pv
          · rfl
          · simp at hvf
        rw [hvf2, configHeader_ctor lhs p ph e eh true hok (by simp_all)]
termination_by structural v

end

mutual

theorem errNone_crpAttrs (lhs : Lhs) (attrs : List (String × Value))
    (h : validCrpAttrs attrs = true) : (dumpCrpAttrs lhs attrs).2 = none := by
  match attrs with
  | [] => simp [dumpCrpAttrs]
  | (k, v) :: rest =>
      rw [validCrpAttrs, Bool.and_eq_true] at h
      rw [dumpCrpAttrs, dseq_snd_none]
      exact ⟨errNone_attrVal _ v h.1, errNone_crpAttrs lhs rest h.2⟩
termination_by structural attrs

theorem errNone_attrVal (lhs : Lhs) (v : Value)
    (h : validAttrVal v = true) : (dumpAttrVal lhs v).2 = none := by
  match v with
  | .prim pv => simp [dumpAttrVal]
  | .config vf p ph e eh ch =>
      rw [validAttrVal, Bool.and_eq_true] at h
      rcases h with ⟨hro, hch⟩
      rw [rootedConfigOk, Bool.and_eq_true, Bool.and_eq_true] at hro
      obtain ⟨⟨hvf, hok⟩, _⟩ := hro
      have hvf2 : vf = none := by
        rcases vf with _ | pv
        · rfl
        · simp at hvf
      rw [dumpAttrVal, dseq_snd_none]
      refine ⟨?_, errNone_children lhs ch hch⟩
      rw [hvf2, configHeader_ctor lhs p ph e eh false hok (by simp)]
  | .crp attrs =>
      rw [validAttrVal, Bool.and_eq_true] at h
      rw [dumpAttrVal, dseq_snd_none]
      exact ⟨rfl, errNone_crpAttrs lhs attrs h.2⟩
  | .dict items =>
      rw [validAttrVal, Bool.and_eq_true, Bool.and_eq_true] at h
      rw [dumpAttrVal]
      exact errNone_dictItems lhs items h.2
  | .other t =>
      rw [validAttrVal] at h
      simp at h
termination_by structural v

theorem errNone_dictItems (lhs : Lhs) (items : List (String × Value))
    (h : validDictItems items = true) : (dump_crp_dict lhs items).2 = none := by
  match items with
  | [] => simp [dump_crp_dict]
  | (k, v) :: rest =>
      rw [validDictItems, Bool.and_eq_true] at h
      rw [dump_crp_dict, dseq_snd_none]
      exact ⟨errNone_dictVal _ v h.1, errNone_dictItems lhs rest h.2⟩
termination_by structural items

theorem errNone_dictVal (lhs : Lhs) (v : Value)
    (h : validDictVal v = true) : (dumpDictVal lhs v).2 = none := by
  match v with
  | .prim pv => simp [dumpDictVal]
  | .config vf p ph e eh ch =>
      rw [validDictVal, Bool.and_eq_true] at h
      rcases h with ⟨hro, hch⟩
      rw [rootedConfigOk, Bool.and_eq_true, Bool.and_eq_true] at hro
      obtain ⟨⟨hvf, hok⟩, _⟩ := hro
      have hvf2 : vf = none := by
        rcases vf with _ | pv
        · rfl
        · simp at hvf
      rw [dumpDictVal, dseq_snd_none]
      refine ⟨?_, errNone_children lhs ch hch⟩
      rw [hvf2, configHeader_ctor lhs p ph e eh false hok (by simp)]
  | .crp attrs => simp [validDictVal] at h
  | .dict items2 => simp [validDictVal] at h
  | .other t => simp [validDictVal] at h

end

/-! ### Shift lemmas: statements for a subtree are its locally-dumped
statements re-rooted under the subtree's target path -/

mutual

theorem shift_children (ch : List (String × Value)) (b : String)
    (pre q : List Accessor) (h : validChildren ch = true) :
    (dumpConfigChildren ⟨b, pre ++ q⟩ ch).1 =
      ((dumpConfigChildren ⟨b, q⟩ ch).1).map (prependStmt pre) := by
  match ch with
  | [] => simp [dumpConfigChildren]
  | (k, v) :: rest =>
      rw [validChildren, Bool.and_eq_true, Bool.and_eq_true] at h
      obtain ⟨⟨_, hv⟩, hrest⟩ := h
      rw [dumpConfigChildren, dumpConfigChildren,
        dseq_of_left_none _ _ (by
          by_cases hval : is_valid_python_attrib_name (dashToUnderscore k) <;>
            simp [hval, errNone_childVal _ v hv]),
        dseq_of_left_none _ _ (by
          by_cases hval : is_valid_python_attrib_name (dashToUnderscore k) <;>
            simp [hval, errNone_childVal _ v hv])]
      rw [List.map_append]
      by_cases hval : is_valid_python_attrib_name (dashToUnderscore k)
      · simp only [hval, if_true, Lhs.push, List.append_assoc]
        rw [shift_childVal v b pre (q ++ [Accessor.attr (dashToUnderscore k)]) hv,
          shift_children rest b pre q hrest]
      · simp only [hval, Bool.false_eq_true, if_false, Lhs.push, List.append_assoc]
        rw [shift_childVal v b pre (q ++ [Accessor.item k]) hv,
          shift_children rest b pre q hrest]
termination_by structural ch

theorem shift_childVal (v : Value) (b : String) (pre q : List Accessor)
    (h : validChildVal v = true) :
    (dumpChildVal ⟨b, pre ++ q⟩ v).1 =
      ((dumpChildVal ⟨b, q⟩ v).1).map (prependStmt pre) := by
  match v with
  | .prim pv => simp [dumpChildVal, prependStmt]
  | .config vf p ph e eh ch =>
      rw [validChildVal, Bool.and_eq_true] at h
      rcases h with ⟨hok2, hch⟩
      rw [childConfigOk, Bool.and_eq_true, Bool.and_eq_true, Bool.and_eq_true,
        Bool.and_eq_true] at hok2
      obtain ⟨⟨⟨⟨hok, hvf⟩, _⟩, _⟩, _⟩ := hok2
      rw [dumpChildVal, dumpChildVal]
      by_cases hkw : (configKwargs p ph e eh).isEmpty = true
      · rw [configHeader_plain _ vf p ph e eh hok hkw,
          configHeader_plain _ vf p ph e eh hok hkw,
          dseq_of_left_none _ _ rfl, dseq_of_left_none _ _ rfl,
          List.map_append, shift_children ch b pre q hch]
        rcases vf with _ | pv <;> simp [prependStmt]
      · have hvf2 : vf = none := by
          rw [if_neg hkw] at hvf
          rcases vf with _ | pv
          · rfl
          · simp at hvf
        subst hvf2
        rw [configHeader_ctor _ p ph e eh true hok (by simp_all),
          configHeader_ctor _ p ph e eh true hok (by simp_all),
          dseq_of_left_none _ _ rfl, dseq_of_left_none _ _ rfl,
          List.map_append, shift_children ch b pre q hch]
        simp [prependStmt]
termination_by structural v

end

mutual

theorem shift_crpAttrs (attrs : List (String × Value)) (b : String)
    (pre q : List Accessor) (h : validCrpAttrs attrs = true) :
    (dumpCrpAttrs ⟨b, pre ++ q⟩ attrs).1 =
      ((dumpCrpAttrs ⟨b, q⟩ attrs).1).map (prependStmt pre) := by
  match attrs with
  | [] => simp [dumpCrpAttrs]
  | (k, v) :: rest =>
      rw [validCrpAttrs, Bool.and_eq_true] at h
      obtain ⟨hv, hrest⟩ := h
      rw [dumpCrpAttrs, dumpCrpAttrs,
        dseq_of_left_none _ _ (errNone_attrVal _ v hv),
        dseq_of_left_none _ _ (errNone_attrVal _ v hv),
        List.map_append]
      simp only [Lhs.push, List.append_assoc]
      rw [shift_attrVal v b pre (q ++ [Accessor.attr k]) hv,
        shift_crpAttrs rest b pre q hrest]
termination_by structural attrs

theorem shift_attrVal (v : Value) (b : String) (pre q : List Accessor)
    (h : validAttrVal v = true) :
    (dumpAttrVal ⟨b, pre ++ q⟩ v).1 =
      ((dumpAttrVal ⟨b, q⟩ v).1).map (prependStmt pre) := by
  match v with
  | .prim pv => simp [dumpAttrVal, prependStmt]
  | .config vf p ph e eh ch =>
      rw [validAttrVal, Bool.and_eq_true] at h
      rcases h with ⟨hro, hch⟩
      rw [rootedConfigOk, Bool.and_eq_true, Bool.and_eq_true] at hro
      obtain ⟨⟨hvf, hok⟩, _⟩ := hro
      have hvf2 : vf = none := by
        rcases vf with _ | pv
        · rfl
        · simp at hvf
      subst hvf2
      rw [dumpAttrVal, dumpAttrVal,
        configHeader_ctor _ p ph e eh false hok (by simp),
        configHeader_ctor _ p ph e eh false hok (by simp),
        dseq_of_left_none _ _ rfl, dseq_of_left_none _ _ rfl,
        List.map_append, shift_children ch b pre q hch]
      simp [prependStmt]
  | .crp attrs =>
      rw [validAttrVal, Bool.and_eq_true] at h
      rw [dumpAttrVal, dumpAttrVal,
        dseq_of_left_none _ _ rfl, dseq_of_left_none _ _ rfl,
        List.map_append, shift_crpAttrs attrs b pre q h.2]
      simp [prependStmt]
  | .dict items =>
      rw [validAttrVal, Bool.and_eq_true, Bool.and_eq_true] at h
      rw [dumpAttrVal, dumpAttrVal, shift_dictItems items b pre q h.2]
  | .other t =>
      rw [validAttrVal] at h
      simp at h
termination_by structural v

theorem shift_dictItems (items : List (String × Value)) (b : String)
    (pre q : List Accessor) (h : validDictItems items = true) :
    (dump_crp_dict ⟨b, pre ++ q⟩ items).1 =
      ((dump_crp_dict ⟨b, q⟩ items).1).map (prependStmt pre) := by
  match items with
  | [] => simp [dump_crp_dict]
  | (k, v) :: rest =>
      rw [validDictItems, Bool.and_eq_true] at h
      obtain ⟨hv, hrest⟩ := h
      rw [dump_crp_dict, dump_crp_dict,
        dseq_of_left_none _ _ (errNone_dictVal _ v hv),
        dseq_of_left_none _ _ (errNone_dictVal _ v hv),
        List.map_append]
      simp only [Lhs.push, List.append_assoc]
      rw [shift_dictVal v b pre (q ++ [Accessor.attr k]) hv,
        shift_dictItems rest b pre q hrest]
termination_by structural items

theorem shift_dictVal (v : Value) (b : String) (pre q : List Accessor)
    (h : validDictVal v = true) :
    (dumpDictVal ⟨b, pre ++ q⟩ v).1 =
      ((dumpDictVal ⟨b, q⟩ v).1).map (prependStmt pre) := by
  match v with
  | .prim pv => simp [dumpDictVal, prependStmt]
  | .config vf p ph e eh ch =>
      rw [validDictVal, Bool.and_eq_true] at h
      rcases h with ⟨hro, hch⟩
      rw [rootedConfigOk, Bool.and_eq_true, Bool.and_eq_true] at hro
      obtain ⟨⟨hvf, hok⟩, _⟩ := hro
      have hvf2 : vf = none := by
        rcases vf with _ | pv
        · rfl
        · simp at hvf
      subst hvf2
      rw [dumpDictVal, dumpDictVal,
        configHeader_ctor _ p ph e eh false hok (by simp),
        configHeader_ctor _ p ph e eh false hok (by simp),
        dseq_of_left_none _ _ rfl, dseq_of_left_none _ _ rfl,
        List.map_append, shift_children ch b pre q hch]
      simp [prependStmt]
  | .crp attrs => simp [validDictVal] at h
  | .dict items2 => simp [validDictVal] at h
  | .other t => simp [validDictVal] at h

end

/-! ### Constructor-call and key helpers -/

theorem fragKwargs_eq_nil (nm v h : String) :
    fragKwargs nm v h = [] ↔ v = "" := by
  by_cases hv : v = "" <;> simp [fragKwargs, hv]

theorem kwargs_empty_all_blank (p ph e eh : String)
    (hkw : configKwargs p ph e eh = [])
    (hok : kwargsOk p ph e eh = true) :
    p = "" ∧ ph = "" ∧ e = "" ∧ eh = "" := by
  rw [configKwargs, List.append_eq_nil] at hkw
  have hp : p = "" := (fragKwargs_eq_nil _ _ _).1 hkw.1
  have he : e = "" := (fragKwargs_eq_nil _ _ _).1 hkw.2
  rw [kwargsOk, Bool.and_eq_true, fragOk, fragOk, hp, he] at hok
  simp at hok
  exact ⟨hp, hok.1, he, hok.2⟩

theorem ctorConfig_configKwargs (p ph e eh : String)
    (hok : kwargsOk p ph e eh = true) :
    ctorConfig (configKwargs p ph e eh) = .config none p ph e eh [] := by
  by_cases hp : p = "" <;> by_cases hph : ph = p <;>
    by_cases he : e = "" <;> by_cases heh : eh = e <;>
    simp_all [kwargsOk, fragOk, ctorConfig, configKwargs, fragKwargs, lookupK]

theorem underscore_dash_roundtrip (s : String)
    (h : containsChar s '_' = false) :
    underscoreToDash (dashToUnderscore s) = s := by
  rw [containsChar] at h
  simp only [List.any_eq_false, decide_eq_true_eq] at h
  rw [underscoreToDash, dashToUnderscore, mapChars, mapChars]
  simp only [List.map_map]
  have hmap : ∀ (l : List Char), (∀ c ∈ l, c ≠ '_') →
      l.map ((fun c => if c = '_' then '-' else c) ∘
        (fun c => if c = '-' then '_' else c)) = l := by
    intro l
    induction l with
    | nil => intro _; rfl
    | cons c rest ih =>
        intro hl
        have hne : c ≠ '_' := hl c (by simp)
        have hc : ((fun c => if c = '_' then '-' else c) ∘
            (fun c => if c = '-' then '_' else c)) c = c := by
          by_cases hdash : c = '-' <;> simp [hdash, hne]
        simp only [List.map_cons, hc]
        rw [ih (fun d hd => hl d (by simp [hd]))]
  rw [hmap s.data h]

/-- The executor-visible key of the accessor the dump emits for a child
key equals the stored key, for keys the external class can store. -/
theorem effKey_childTarget (k : String) (hk : childKeyOk k = true) :
    effKey (if is_valid_python_attrib_name (dashToUnderscore k)
      then .attr (dashToUnderscore k) else .item k) = k := by
  by_cases hv : is_valid_python_attrib_name (dashToUnderscore k)
  · rw [childKeyOk, if_pos hv] at hk
    simp only [hv, if_true, effKey]
    exact underscore_dash_roundtrip k (by simpa using hk)
  · simp [hv, effKey]

/-! ### Valid subtrees emit at least one statement -/

theorem dseq_fst_ne_nil (a b : List Stmt × Option DumpError)
    (h : a.1 ≠ []) : (dseq a b).1 ≠ [] := by
  rcases a with ⟨o, e⟩
  cases e <;> simp_all [dseq]

mutual

theorem ne_nil_children (lhs : Lhs) (ch : List (String × Value))
    (hch : validChildren ch = true) (hne : ch ≠ []) :
    (dumpConfigChildren lhs ch).1 ≠ [] := by
  match ch with
  | [] => exact absurd rfl hne
  | (k, v) :: rest =>
      rw [validChildren, Bool.and_eq_true, Bool.and_eq_true] at hch
      rw [dumpConfigChildren]
      exact dseq_fst_ne_nil _ _ (ne_nil_childVal _ v hch.1.2)
termination_by structural ch

theorem ne_nil_childVal (lhs : Lhs) (v : Value)
    (hv : validChildVal v = true) : (dumpChildVal lhs v).1 ≠ [] := by
  match v with
  | .prim pv => simp [dumpChildVal]
  | .config vf p ph e eh ch =>
      rw [validChildVal, Bool.and_eq_true] at hv
      rcases hv with ⟨hok2, hch⟩
      rw [childConfigOk, Bool.and_eq_true, Bool.and_eq_true, Bool.and_eq_true,
        Bool.and_eq_true] at hok2
      obtain ⟨⟨⟨⟨hok, hvf⟩, hemit⟩, _⟩, _⟩ := hok2
      rw [dumpChildVal]
      by_cases hkw : (configKwargs p ph e eh).isEmpty = true
      · rw [configHeader_plain _ vf p ph e eh hok hkw]
        rcases vf with _ | pv
        · rw [dseq_nil_left]
          refine ne_nil_children lhs ch hch ?_
          simp [hkw] at hemit
          simpa [List.isEmpty_eq_true] using hemit
        · exact dseq_fst_ne_nil _ _ (by simp)
      · have hvf2 : vf = none := by
          rw [if_neg hkw] at hvf
          rcases vf with _ | pv
          · rfl
          · simp at hvf
        subst hvf2
        rw [configHeader_ctor _ p ph e eh true hok (by simp_all)]
        exact dseq_fst_ne_nil _ _ (by simp)
termination_by structural v

end

/-! ### Round trip: replaying a valid subtree's statements rebuilds it -/

mutual

theorem rt_children (ch : List (String × Value)) (b : String) (dflt0 : Value)
    (vf : Option Prim) (p ph e eh : String) (built : List (String × Value))
    (hch : validChildren ch = true) (hnd : keysNodup ch = true)
    (hfresh : ∀ kv ∈ ch, lookupK built kv.1 = none) :
    execVS dflt0 b (some (.config vf p ph e eh built))
        ((dumpConfigChildren ⟨b, []⟩ ch).1) =
      some (some (.config vf p ph e eh (built ++ ch))) := by
  match ch with
  | [] => simp [dumpConfigChildren, execVS]
  | (k, v) :: rest =>
      rw [validChildren, Bool.and_eq_true, Bool.and_eq_true] at hch
      obtain ⟨⟨hkey, hv⟩, hrest⟩ := hch
      rw [keysNodup, Bool.and_eq_true] at hnd
      obtain ⟨hknotin, hndrest⟩ := hnd
      rw [dumpConfigChildren,
        dseq_of_left_none _ _ (by
          by_cases hval : is_valid_python_attrib_name (dashToUnderscore k) <;>
            simp [hval, errNone_childVal _ v hv])]
      simp only
      rw [execVS_append]
      have htgt : (if is_valid_python_attrib_name (dashToUnderscore k)
          then Lhs.push ⟨b, []⟩ (.attr (dashToUnderscore k))
          else Lhs.push ⟨b, []⟩ (.item k)) =
          Lhs.mk b [(if is_valid_python_attrib_name (dashToUnderscore k)
            then Accessor.attr (dashToUnderscore k) else Accessor.item k)] := by
        by_cases hval : is_valid_python_attrib_name (dashToUnderscore k) <;>
          simp [hval, Lhs.push]
      have hshift : (dumpChildVal (if is_valid_python_attrib_name (dashToUnderscore k)
          then Lhs.push ⟨b, []⟩ (.attr (dashToUnderscore k))
          else Lhs.push ⟨b, []⟩ (.item k)) v).1 =
          ((dumpChildVal ⟨b, []⟩ v).1).map
            (prependStmt [(if is_valid_python_attrib_name (dashToUnderscore k)
              then Accessor.attr (dashToUnderscore k) else Accessor.item k)]) := by
        rw [htgt]
        exact shift_childVal v b
          [(if is_valid_python_attrib_name (dashToUnderscore k)
            then Accessor.attr (dashToUnderscore k) else Accessor.item k)] [] hv
      rw [hshift, execVS_frame_config]
      rw [effKey_childTarget k hkey, hfresh (k, v) (by simp),
        rt_childVal v b hv]
      simp only [Option.map_some', Option.some_bind, updK,
        setK_of_lookup_none built k v (hfresh (k, v) (by simp))]
      rw [rt_children rest b dflt0 vf p ph e eh (built ++ [(k, v)]) hrest hndrest
        (by
          intro kv hkv
          rw [lookupK_append]
          rw [hfresh kv (by simp [hkv])]
          have hne : kv.1 ≠ k := by
            intro hcontra
            have : rest.any (fun kv2 => kv2.1 == k) = true :=
              List.any_eq_true.2 ⟨kv, hkv, by simp [hcontra]⟩
            simp [this] at hknotin
          simp [lookupK, Ne.symm hne])]
      rw [List.append_assoc]
      rfl
termination_by structural ch

theorem rt_childVal (v : Value) (b : String)
    (hv : validChildVal v = true) :
    execVS emptyConfig b none ((dumpChildVal ⟨b, []⟩ v).1) = some (some v) := by
  match v with
  | .prim pv =>
      simp [dumpChildVal, execVS, assignV, rhsToValue]
  | .config vf p ph e eh ch =>
      rw [validChildVal, Bool.and_eq_true] at hv
      rcases hv with ⟨hok2, hch⟩
      rw [childConfigOk, Bool.and_eq_true, Bool.and_eq_true, Bool.and_eq_true,
        Bool.and_eq_true] at hok2
      obtain ⟨⟨⟨⟨hok, hvf⟩, hemit⟩, hpure⟩, hnd⟩ := hok2
      rw [dumpChildVal]
      by_cases hkw : (configKwargs p ph e eh).isEmpty = true
      · have hkw2 : configKwargs p ph e eh = [] := by
          simpa [List.isEmpty_eq_true] using hkw
        obtain ⟨hp, hph, he, heh⟩ := kwargs_empty_all_blank p ph e eh hkw2 hok
        subst hp; subst hph; subst he; subst heh
        rw [configHeader_plain _ vf _ _ _ _ hok hkw]
        rcases vf with _ | pv
        · rw [dseq_nil_left]
          have hchne : ch ≠ [] := by
            simp [hkw] at hemit
            simpa [List.isEmpty_eq_true] using hemit
          obtain ⟨s, ss, hlist⟩ :=
            List.exists_cons_of_ne_nil (ne_nil_children ⟨b, []⟩ ch hch hchne)
          rw [hlist, execVS_none_cons, ← hlist]
          have := rt_children ch b emptyConfig none "" "" "" "" [] hch hnd
            (by intro kv _; simp [lookupK])
          simpa [emptyConfig] using this
        · have hchne : ch ≠ [] := by
            simp at hpure
            simpa [List.isEmpty_eq_true] using hpure
          rw [dseq_cons_left]
          rw [show ({ lhs := Lhs.mk b [], rhs := Rhs.lit pv } : Stmt) ::
              (dumpConfigChildren ⟨b, []⟩ ch).1 =
              [⟨⟨b, []⟩, Rhs.lit pv⟩] ++ (dumpConfigChildren ⟨b, []⟩ ch).1 from rfl,
            execVS_append]
          have hone : execVS emptyConfig b none [⟨⟨b, []⟩, Rhs.lit pv⟩] =
              some (some (.prim pv)) := by
            simp [execVS, assignV, rhsToValue]
          rw [hone]
          simp only [Option.some_bind]
          obtain ⟨s, ss, hlist⟩ :=
            List.exists_cons_of_ne_nil (ne_nil_children ⟨b, []⟩ ch hch hchne)
          rw [hlist, execVS_prim_cons, ← hlist]
          exact rt_children ch b emptyConfig (some pv) "" "" "" "" [] hch hnd
            (by intro kv _; simp [lookupK])
      · have hvf2 : vf = none := by
          rw [if_neg hkw] at hvf
          rcases vf with _ | pv
          · rfl
          · simp at hvf
        subst hvf2
        rw [configHeader_ctor _ p ph e eh true hok (by simp_all),
          dseq_cons_left]
        rw [show ({ lhs := Lhs.mk b [], rhs := Rhs.configCtor (configKwargs p ph e eh) } : Stmt) ::
            (dumpConfigChildren ⟨b, []⟩ ch).1 =
            [⟨⟨b, []⟩, Rhs.configCtor (configKwargs p ph e eh)⟩] ++
              (dumpConfigChildren ⟨b, []⟩ ch).1 from rfl,
          execVS_append]
        have hone : execVS emptyConfig b none
            [⟨⟨b, []⟩, Rhs.configCtor (configKwargs p ph e eh)⟩] =
            some (some (ctorConfig (configKwargs p ph e eh))) := by
          simp [execVS, assignV, rhsToValue]
        rw [hone, ctorConfig_configKwargs p ph e eh hok]
        simp only [Option.some_bind]
        exact rt_children ch b emptyConfig none p ph e eh [] hch hnd
          (by intro kv _; simp [lookupK])
termination_by structural v

end

theorem rt_rootedConfig (b : String) (dflt0 : Value) (p ph e eh : String)
    (ch : List (String × Value))
    (hok : kwargsOk p ph e eh = true) (hch : validChildren ch = true)
    (hnd : keysNodup ch = true) :
    execVS dflt0 b none
        ((dseq (configHeader ⟨b, []⟩ none p ph e eh false)
          (dumpConfigChildren ⟨b, []⟩ ch)).1) =
      some (some (.config none p ph e eh ch)) := by
  rw [configHeader_ctor _ p ph e eh false hok (by simp), dseq_cons_left]
  rw [show ({ lhs := Lhs.mk b [], rhs := Rhs.configCtor (configKwargs p ph e eh) } : Stmt) ::
      (dumpConfigChildren ⟨b, []⟩ ch).1 =
      [⟨⟨b, []⟩, Rhs.configCtor (configKwargs p ph e eh)⟩] ++
        (dumpConfigChildren ⟨b, []⟩ ch).1 from rfl,
    execVS_append]
  have hone : execVS dflt0 b none
      [⟨⟨b, []⟩, Rhs.configCtor (configKwargs p ph e eh)⟩] =
      some (some (ctorConfig (configKwargs p ph e eh))) := by
    simp [execVS, assignV, rhsToValue]
  rw [hone, ctorConfig_configKwargs p ph e eh hok]
  simp only [Option.some_bind]
  exact rt_children ch b dflt0 none p ph e eh [] hch hnd
    (by intro kv _; simp [lookupK])

theorem rt_dictVal (v : Value) (b : String) (hv : validDictVal v = true) :
    execVS emptyConfig b none ((dumpDictVal ⟨b, []⟩ v).1) = some (some v) := by
  match v with
  | .prim pv => simp [dumpDictVal, execVS, assignV, rhsToValue]
  | .config vf p ph e eh ch =>
      rw [validDictVal, Bool.and_eq_true] at hv
      rcases hv with ⟨hro, hch⟩
      rw [rootedConfigOk, Bool.and_eq_true, Bool.and_eq_true] at hro
      obtain ⟨⟨hvf, hok⟩, hnd⟩ := hro
      have hvf2 : vf = none := by
        rcases vf with _ | pv
        · rfl
        · simp at hvf
      subst hvf2
      rw [dumpDictVal]
      exact rt_rootedConfig b emptyConfig p ph e eh ch hok hch hnd
  | .crp attrs => simp [validDictVal] at hv
  | .dict items2 => simp [validDictVal] at hv
  | .other t => simp [validDictVal] at hv

theorem ne_nil_dictVal (lhs : Lhs) (v : Value) (hv : validDictVal v = true) :
    (dumpDictVal lhs v).1 ≠ [] := by
  match v with
  | .prim pv => simp [dumpDictVal]
  | .config vf p ph e eh ch =>
      rw [validDictVal, Bool.and_eq_true] at hv
      rcases hv with ⟨hro, hch⟩
      rw [rootedConfigOk, Bool.and_eq_true, Bool.and_eq_true] at hro
      obtain ⟨⟨hvf, hok⟩, _⟩ := hro
      have hvf2 : vf = none := by
        rcases vf with _ | pv
        · rfl
        · simp at hvf
      subst hvf2
      rw [dumpDictVal, configHeader_ctor _ p ph e eh false hok (by simp)]
      exact dseq_fst_ne_nil _ _ (by simp)
  | .crp attrs => simp [validDictVal] at hv
  | .dict items2 => simp [validDictVal] at hv
  | .other t => simp [validDictVal] at hv

theorem ne_nil_dictItems (lhs : Lhs) (items : List (String × Value))
    (hv : validDictItems items = true) (hne : items ≠ []) :
    (dump_crp_dict lhs items).1 ≠ [] := by
  match items with
  | [] => exact absurd rfl hne
  | (k, v) :: rest =>
      rw [validDictItems, Bool.and_eq_true] at hv
      rw [dump_crp_dict]
      exact dseq_fst_ne_nil _ _ (ne_nil_dictVal _ v hv.1)

theorem rt_dictItems (items : List (String × Value)) (b : String)
    (dflt0 : Value) (built : List (String × Value))
    (hv : validDictItems items = true) (hnd : keysNodup items = true)
    (hfresh : ∀ kv ∈ items, lookupK built kv.1 = none) :
    execVS dflt0 b (some (.dict built)) ((dump_crp_dict ⟨b, []⟩ items).1) =
      some (some (.dict (built ++ items))) := by
  match items with
  | [] => simp [dump_crp_dict, execVS]
  | (k, v) :: rest =>
      rw [validDictItems, Bool.and_eq_true] at hv
      obtain ⟨hdv, hrest⟩ := hv
      rw [keysNodup, Bool.and_eq_true] at hnd
      obtain ⟨hknotin, hndrest⟩ := hnd
      rw [dump_crp_dict,
        dseq_of_left_none _ _ (errNone_dictVal _ v hdv)]
      rw [execVS_append]
      have hshift : (dumpDictVal (Lhs.push ⟨b, []⟩ (.attr k)) v).1 =
          ((dumpDictVal ⟨b, []⟩ v).1).map (prependStmt [Accessor.attr k]) := by
        rw [show Lhs.push ⟨b, []⟩ (.attr k) = Lhs.mk b [Accessor.attr k] from rfl]
        exact shift_dictVal v b [Accessor.attr k] [] hdv
      rw [hshift, execVS_frame_dict]
      rw [show rawKey (Accessor.attr k) = k from rfl,
        hfresh (k, v) (by simp), rt_dictVal v b hdv]
      simp only [Option.map_some', Option.some_bind, updK,
        setK_of_lookup_none built k v (hfresh (k, v) (by simp))]
      rw [rt_dictItems rest b dflt0 (built ++ [(k, v)]) hrest hndrest
        (by
          intro kv hkv
          rw [lookupK_append]
          rw [hfresh kv (by simp [hkv])]
          have hne : kv.1 ≠ k := by
            intro hcontra
            have : rest.any (fun kv2 => kv2.1 == k) = true :=
              List.any_eq_true.2 ⟨kv, hkv, by simp [hcontra]⟩
            simp [this] at hknotin
          simp [lookupK, Ne.symm hne])]
      rw [List.append_assoc]
      rfl

mutual

theorem rt_crpAttrs (attrs : List (String × Value)) (b : String)
    (dflt0 : Value) (built : List (String × Value))
    (hv : validCrpAttrs attrs = true) (hnd : keysNodup attrs = true)
    (hfresh : ∀ kv ∈ attrs, lookupK built kv.1 = none) :
    execVS dflt0 b (some (.crp built)) ((dumpCrpAttrs ⟨b, []⟩ attrs).1) =
      some (some (.crp (built ++ attrs))) := by
  match attrs with
  | [] => simp [dumpCrpAttrs, execVS]
  | (k, v) :: rest =>
      rw [validCrpAttrs, Bool.and_eq_true] at hv
      obtain ⟨hav, hrest⟩ := hv
      rw [keysNodup, Bool.and_eq_true] at hnd
      obtain ⟨hknotin, hndrest⟩ := hnd
      rw [dumpCrpAttrs,
        dseq_of_left_none _ _ (errNone_attrVal _ v hav)]
      rw [execVS_append]
      have hshift : (dumpAttrVal (Lhs.push ⟨b, []⟩ (.attr k)) v).1 =
          ((dumpAttrVal ⟨b, []⟩ v).1).map (prependStmt [Accessor.attr k]) := by
        rw [show Lhs.push ⟨b, []⟩ (.attr k) = Lhs.mk b [Accessor.attr k] from rfl]
        exact shift_attrVal v b [Accessor.attr k] [] hav
      rw [hshift, execVS_frame_crp]
      rw [hfresh (k, v) (by simp), rt_attrVal v b hav]
      simp only [Option.map_some', Option.some_bind, updK,
        setK_of_lookup_none built k v (hfresh (k, v) (by simp))]
      rw [rt_crpAttrs rest b dflt0 (built ++ [(k, v)]) hrest hndrest
        (by
          intro kv hkv
          rw [lookupK_append]
          rw [hfresh kv (by simp [hkv])]
          have hne : kv.1 ≠ k := by
            intro hcontra
            have : rest.any (fun kv2 => kv2.1 == k) = true :=
              List.any_eq_true.2 ⟨kv, hkv, by simp [hcontra]⟩
            simp [this] at hknotin
          simp [lookupK, Ne.symm hne])]
      rw [List.append_assoc]
      rfl
termination_by structural attrs

theorem rt_attrVal (v : Value) (b : String) (hv : validAttrVal v = true) :
    execVS (.dict []) b none ((dumpAttrVal ⟨b, []⟩ v).1) = some (some v) := by
  match v with
  | .prim pv => simp [dumpAttrVal, execVS, assignV, rhsToValue]
  | .config vf p ph e eh ch =>
      rw [validAttrVal, Bool.and_eq_true] at hv
      rcases hv with ⟨hro, hch⟩
      rw [rootedConfigOk, Bool.and_eq_true, Bool.and_eq_true] at hro
      obtain ⟨⟨hvf, hok⟩, hnd⟩ := hro
      have hvf2 : vf = none := by
        rcases vf with _ | pv
        · rfl
        · simp at hvf
      subst hvf2
      rw [dumpAttrVal]
      exact rt_rootedConfig b (.dict []) p ph e eh ch hok hch hnd
  | .crp attrs2 =>
      rw [validAttrVal, Bool.and_eq_true] at hv
      rw [dumpAttrVal, dseq_cons_left]
      rw [show ({ lhs := Lhs.mk b [], rhs := Rhs.crpCtor } : Stmt) ::
          (dumpCrpAttrs ⟨b, []⟩ attrs2).1 =
          [⟨⟨b, []⟩, Rhs.crpCtor⟩] ++ (dumpCrpAttrs ⟨b, []⟩ attrs2).1 from rfl,
        execVS_append]
      have hone : execVS (.dict []) b none [⟨⟨b, []⟩, Rhs.crpCtor⟩] =
          some (some (.crp [])) := by
        simp [execVS, assignV, rhsToValue]
      rw [hone]
      simp only [Option.some_bind]
      exact rt_crpAttrs attrs2 b (.dict []) [] hv.2 hv.1
        (by intro kv _; simp [lookupK])
  | .dict items =>
      rw [validAttrVal, Bool.and_eq_true, Bool.and_eq_true] at hv
      obtain ⟨⟨hne, hnd⟩, hitems⟩ := hv
      rw [dumpAttrVal]
      have hne2 : items ≠ [] := by
        simpa [List.isEmpty_eq_true] using hne
      obtain ⟨s, ss, hlist⟩ :=
        List.exists_cons_of_ne_nil (ne_nil_dictItems ⟨b, []⟩ items hitems hne2)
      rw [hlist, execVS_none_cons, ← hlist]
      have := rt_dictItems items b (.dict []) [] hitems hnd
        (by intro kv _; simp [lookupK])
      simpa using this
  | .other t => simp [validAttrVal] at hv
termination_by structural v

end

/-- C1 (amended): for every valid ParameterBundle or HierarchicalConfig
tree — where, beyond the data model's own invariants, validity requires
that config child keys whose hyphen-normalized form is a valid identifier
contain no underscore, that keys at each level are distinct, that nodes
which would emit nothing (empty sub-configs, empty mappings) are absent,
and that pure own-value-only children are presented as scalars —
serialization by `dump_py_code` raises no error and executing the emitted
statement sequence in a fresh environment providing the two constructors
(with auto-vivifying attribute assignment) yields exactly the original
tree, attribute for attribute, keys in order, with the same prolog/epilog
texts and hashes and the same own-value-vs-explicit-constructor shape. -/
theorem dump_py_code_roundtrip (v : Value) (b : String)
    (h : validTop v = true) :
    (dump_py_code v ⟨b, []⟩).2 = none ∧
    execStmts b none ((dump_py_code v ⟨b, []⟩).1) = some (some v) := by
  match v with
  | .prim pv =>
      constructor
      · rfl
      · simp [dump_py_code, execStmts, execStmt, rhsToValue]
  | .crp attrs =>
      rw [validTop, Bool.and_eq_true] at h
      constructor
      · rw [dump_py_code, dump_crp, dseq_snd_none]
        exact ⟨rfl, errNone_crpAttrs _ attrs h.2⟩
      · rw [dump_py_code, dump_crp, dseq_cons_left]
        rw [execStmts]
        have hstep : execStmt b none ⟨⟨b, []⟩, Rhs.crpCtor⟩ =
            some (some (.crp [])) := by
          simp [execStmt, rhsToValue]
        rw [hstep]
        simp only [Option.some_bind]
        rw [execStmts_of_some]
        exact rt_crpAttrs attrs b (.dict []) [] h.2 h.1
          (by intro kv _; simp [lookupK])
  | .config vf p ph e eh ch =>
      rw [validTop, validRootedConfig, Bool.and_eq_true] at h
      rcases h with ⟨hro, hch⟩
      rw [rootedConfigOk, Bool.and_eq_true, Bool.and_eq_true] at hro
      obtain ⟨⟨hvf, hok⟩, hnd⟩ := hro
      have hvf2 : vf = none := by
        rcases vf with _ | pv
        · rfl
        · simp at hvf
      subst hvf2
      constructor
      · rw [dump_py_code, dump_rasr_config, dseq_snd_none]
        refine ⟨?_, errNone_children _ ch hch⟩
        rw [configHeader_ctor _ p ph e eh false hok (by simp)]
      · rw [dump_py_code, dump_rasr_config,
          configHeader_ctor _ p ph e eh false hok (by simp), dseq_cons_left]
        rw [execStmts]
        have hstep : execStmt b none
            ⟨⟨b, []⟩, Rhs.configCtor (configKwargs p ph e eh)⟩ =
            some (some (ctorConfig (configKwargs p ph e eh))) := by
          simp [execStmt, rhsToValue]
        rw [hstep]
        simp only [Option.some_bind]
        rw [execStmts_of_some, ctorConfig_configKwargs p ph e eh hok]
        exact rt_children ch b (.dict []) none p ph e eh [] hch hnd
          (by intro kv _; simp [lookupK])
  | .dict items => simp [validTop] at h
  | .other t => simp [validTop] at h

/-- Witness for C1: the sample tree replays to itself. -/
theorem dump_py_code_roundtrip_w :
    execStmts "crp" none ((dump_py_code roundTripExample ⟨"crp", []⟩).1) =
      some (some roundTripExample) :=
  (dump_py_code_roundtrip roundTripExample "crp" (by decide)).2

/-- C1 (counterexample to the claimed form): a config tree with child key
"a_b" satisfies the spec's stated invariants and dumps without error, yet
replaying its statements does not reproduce the tree — the dotted
assignment `x.a_b = 1` addresses the child by its hyphen-normalized name,
so the replayed tree holds the key "a-b". -/
theorem dump_py_code_roundtrip_cex :
    (dump_py_code underscoreKeyExample ⟨"x", []⟩).2 = none ∧
    execStmts "x" none ((dump_py_code underscoreKeyExample ⟨"x", []⟩).1) ≠
      some (some underscoreKeyExample) := by
  constructor
  · decide
  · intro h
    have h2 := congrArg firstChildKeyOf h
    revert h2
    decide
